import Mathlib

/-!
# Verification of the memoryman storage-and-retrieval core

A shallow embedding of the repository's core:

* `memoryman/utils/serialization.py` — the record codec (`serialize_data` /
  `deserialize_data`), modelled as a JSON printer and parser over the dynamic
  value type `JValue`;
* `memoryman/core/retrieval.py` — the pure retrieval engine
  (`SimpleRetriever.filter_by_field`, `filter_by_multiple`, `search_text`,
  `sort_by_field`, `limit_results`, `get_recent`);
* `memoryman/storage/sqlite_backend.py` — the SQLite persistence backend
  (`store`, `retrieve`, `query`, `delete`, `close`), modelled as explicit
  state passing over a `DB` record.

Python dynamic values are modelled by `JValue`; Python dicts are association
lists in insertion order (`Record`). Machine arithmetic does not arise: the
numbers involved are unbounded Python ints, modelled by `Int`/`Nat`.
-/

namespace Memoryman

/--
The dynamic values a record field can hold (string, number, boolean, null,
nested mapping, or sequence thereof), as enumerated in the data model of the
source. Python dicts are ordered association lists. Numbers are modelled as
integers (`json` round-trips Python ints through their decimal
representation; floats are outside this model).
-/
inductive JValue where
  | null : JValue
  | bool (b : Bool) : JValue
  | num (n : Int) : JValue
  | str (s : String) : JValue
  | arr (elems : List JValue) : JValue
  | obj (fields : List (String × JValue)) : JValue

/-- A record: a Python dict mapping field names to dynamic values, in
insertion order, as stored and queried by the backend. -/
abbrev Record := List (String × JValue)

/-- Three-way comparison on `Int`, spelled out so that `omega` can reason
about it directly. -/
def intCmp (x y : Int) : Ordering := if x < y then .lt else if y < x then .gt else .eq

/-- Three-way comparison on `Nat`. -/
def natCmp (x y : Nat) : Ordering := if x < y then .lt else if y < x then .gt else .eq

/-- Lexicographic comparison of two strings by code point, as Python compares
`str` values. -/
def charListCmp : List Char → List Char → Ordering
  | [], [] => .eq
  | [], _ :: _ => .lt
  | _ :: _, [] => .gt
  | c :: cs, d :: ds =>
    match natCmp c.toNat d.toNat with
    | .eq => charListCmp cs ds
    | o => o

/-- The numeric view of a value: Python `bool` is a subtype of `int`
(`True == 1`, `False == 0`), so booleans and numbers share one comparison
class. All other values have no numeric view. -/
def asInt : JValue → Option Int
  | .num n => some n
  | .bool b => some (if b then 1 else 0)
  | _ => none

mutual

/--
Python `==` on modelled values. Numbers and booleans compare through their
shared numeric value; strings and nulls compare structurally; lists compare
elementwise; dicts compare as CPython does — equal length and every key of
the left dict present in the right with `==` values. Values of different
comparison classes are unequal, never an error.
-/
def pyEq : JValue → JValue → Bool
  | .null, .null => true
  | .str s, .str t => s == t
  | .arr xs, .arr ys => pyEqList xs ys
  | .obj fs, .obj gs => (fs.length == gs.length) && pyEqFields fs gs
  | a, b =>
    match asInt a, asInt b with
    | some x, some y => x == y
    | _, _ => false
termination_by a b => sizeOf a + sizeOf b
decreasing_by all_goals (simp_wf; try omega)

/-- Elementwise Python `==` on lists, including the length check. -/
def pyEqList : List JValue → List JValue → Bool
  | [], [] => true
  | x :: xs, y :: ys => pyEq x y && pyEqList xs ys
  | _, _ => false
termination_by xs ys => sizeOf xs + sizeOf ys
decreasing_by all_goals (simp_wf; try omega)

/-- Every key/value pair of the left dict is matched in the right dict. -/
def pyEqFields : List (String × JValue) → List (String × JValue) → Bool
  | [], _ => true
  | (k, v) :: fs, gs => pyLookupEq k v gs && pyEqFields fs gs
termination_by fs gs => sizeOf fs + sizeOf gs
decreasing_by all_goals (simp_wf; try omega)

/-- Key `k` is present in the dict with a value `==` to `v`. -/
def pyLookupEq : String → JValue → List (String × JValue) → Bool
  | _, _, [] => false
  | k, v, (k', w) :: gs => if k == k' then pyEq v w else pyLookupEq k v gs
termination_by _ v gs => sizeOf v + sizeOf gs
decreasing_by all_goals (simp_wf; try omega)

/--
Python `<`-style three-way comparison: `some o` when the two values are
comparable with outcome `o`, `none` when comparing them raises `TypeError`
(mixed classes, `None`, or dicts). Numbers and booleans compare numerically,
strings lexicographically by code point, lists lexicographically stepping
over `==` elements; everything else is incomparable.
-/
def pyCmp : JValue → JValue → Option Ordering
  | .str s, .str t => some (charListCmp s.data t.data)
  | .arr xs, .arr ys => pyCmpList xs ys
  | a, b =>
    match asInt a, asInt b with
    | some x, some y => some (intCmp x y)
    | _, _ => none
termination_by a b => sizeOf a + sizeOf b
decreasing_by all_goals (simp_wf; try omega)

/-- Python list comparison: step past `==` elements, decide at the first
non-equal pair (raising if that pair is incomparable), fall back to length. -/
def pyCmpList : List JValue → List JValue → Option Ordering
  | [], [] => some .eq
  | [], _ :: _ => some .lt
  | _ :: _, [] => some .gt
  | x :: xs, y :: ys => if pyEq x y then pyCmpList xs ys else pyCmp x y
termination_by xs ys => sizeOf xs + sizeOf ys
decreasing_by all_goals (simp_wf; try omega)

end

/-- The decimal digit character for `d < 10`. -/
def digitChar (d : Nat) : Char := Char.ofNat (48 + d)

/-- The decimal digits of a natural number, most significant first, as
Python prints an `int`. -/
def natDigits (n : Nat) : List Char :=
  if n < 10 then [digitChar n] else natDigits (n / 10) ++ [digitChar (n % 10)]
termination_by n
decreasing_by simp_wf; omega

/-- The decimal rendering of an integer, with a leading minus sign when
negative, as Python prints an `int`. -/
def intDigits (n : Int) : List Char :=
  if n < 0 then '-' :: natDigits n.natAbs else natDigits n.natAbs

/-- Opening curly bracket character. -/
def lbrace : Char := Char.ofNat 123

/-- Closing curly bracket character. -/
def rbrace : Char := Char.ofNat 125

/-- The apostrophe character. -/
def squote : Char := Char.ofNat 39

/-- The double-quote character. -/
def dquote : Char := Char.ofNat 34

/-- The backslash character. -/
def bslash : Char := Char.ofNat 92

/-- The quote Python `repr` picks for a string: an apostrophe, unless the
string contains one and no double quote. -/
def reprQuote (s : String) : Char :=
  if s.data.contains squote && !(s.data.contains dquote) then dquote else squote

/-- The lowercase hexadecimal digit character for `d < 16`. -/
def digitChar2 (d : Nat) : Char := if d < 10 then Char.ofNat (48 + d) else Char.ofNat (87 + d)

/-- How Python `repr` renders one character inside a quoted string: escape the
backslash and the chosen quote, shorten newline/carriage-return/tab, render
other control characters (and delete) as hexadecimal escapes, and keep the
rest. (CPython also escapes non-printable characters above `0x7f`; printable
ones are kept, which is the case modelled here.) -/
def reprEscChar (quote c : Char) : List Char :=
  if c = bslash || c = quote then [bslash, c]
  else if c.toNat = 10 then [bslash, 'n']
  else if c.toNat = 13 then [bslash, 'r']
  else if c.toNat = 9 then [bslash, 't']
  else if c.toNat < 32 || c.toNat = 127 then
    [bslash, 'x', digitChar2 (c.toNat / 16), digitChar2 (c.toNat % 16)]
  else [c]

/-- Python `repr` of a string: quoted with escapes. -/
def strRepr (s : String) : List Char :=
  let q := reprQuote s
  q :: s.data.flatMap (reprEscChar q) ++ [q]

mutual

/-- Python `repr()` of a modelled value, as used for elements of lists and
dicts inside `str()`. -/
def pyRepr : JValue → List Char
  | .null => "None".data
  | .bool true => "True".data
  | .bool false => "False".data
  | .num n => intDigits n
  | .str s => strRepr s
  | .arr [] => "[]".data
  | .arr (x :: xs) => '[' :: (pyRepr x ++ pyReprArrTail xs ++ [']'])
  | .obj [] => [lbrace, rbrace]
  | .obj ((k, v) :: fs) =>
    lbrace :: (strRepr k ++ ':' :: ' ' :: pyRepr v ++ pyReprObjTail fs ++ [rbrace])

/-- The ", "-separated remaining elements of a Python list rendering. -/
def pyReprArrTail : List JValue → List Char
  | [] => []
  | y :: ys => ',' :: ' ' :: (pyRepr y ++ pyReprArrTail ys)

/-- The ", "-separated remaining entries of a Python dict rendering. -/
def pyReprObjTail : List (String × JValue) → List Char
  | [] => []
  | (k, v) :: fs => ',' :: ' ' :: (strRepr k ++ ':' :: ' ' :: pyRepr v ++ pyReprObjTail fs)

end

/-- Python `str()` of a modelled value: a string is itself, everything else
renders as its `repr`. This is the "textual form" the search scans when an
explicit field list is supplied. -/
def pyStrChars : JValue → List Char
  | .str s => s.data
  | v => pyRepr v

mutual

/-- The value lies in the image of Python's data model: every dict (at any
depth) has pairwise-distinct keys. All values handled by the source arise
from Python dicts and satisfy this. -/
def jvalid : JValue → Bool
  | .null => true
  | .bool _ => true
  | .num _ => true
  | .str _ => true
  | .arr l => jvalidList l
  | .obj fs => decide ((fs.map Prod.fst).Nodup) && jvalidFields fs

/-- Every element of the list is a valid value. -/
def jvalidList : List JValue → Bool
  | [] => true
  | x :: xs => jvalid x && jvalidList xs

/-- Every field value is a valid value. -/
def jvalidFields : List (String × JValue) → Bool
  | [] => true
  | (_, v) :: fs => jvalid v && jvalidFields fs

end

namespace SimpleRetriever

/-- `SimpleRetriever.filter_by_field`: keep the items whose value at `field`
(Python `dict.get`, so `None` when the field is missing) is Python-`==` to
`value`. -/
def filter_by_field (items : List Record) (field : String) (value : JValue) : List Record :=
  items.filter fun item => pyEq ((List.lookup field item).getD .null) value

/-- `SimpleRetriever.filter_by_multiple`: apply `filter_by_field` for each
filter entry in turn. -/
def filter_by_multiple (items : List Record) (filters : List (String × JValue)) : List Record :=
  filters.foldl (fun result fv => filter_by_field result fv.1 fv.2) items

/-- Python's substring test `a in b` on text: `a` occurs contiguously in
`b`. -/
def containsSub (a b : List Char) : Bool := decide (a <:+: b)

/-- Lower-case a character list, modelling Python `str.lower` (faithful on
the ASCII range the tests exercise). -/
def lowerChars (cs : List Char) : List Char := cs.map Char.toLower

/-- The per-item match test of `SimpleRetriever.search_text`: with a
non-empty field list (Python's `if fields:` truthiness), the lowered text of
some listed, present field contains the term; otherwise some string-valued
field contains the term. -/
def searchMatches (item : Record) (termLower : List Char) (fields : Option (List String)) : Bool :=
  match fields with
  | some (f :: fs) =>
    (f :: fs).any fun field =>
      match List.lookup field item with
      | some v => containsSub termLower (lowerChars (pyStrChars v))
      | none => false
  | _ =>
    item.any fun kv =>
      match kv.2 with
      | .str s => containsSub termLower (lowerChars s.data)
      | _ => false

/-- `SimpleRetriever.search_text`: keep the items matching the lower-cased
search term; each input item is appended at most once (the source breaks out
of the field loop on first match). -/
def search_text (items : List Record) (search_term : String)
    (fields : Option (List String)) : List Record :=
  items.filter fun item => searchMatches item (lowerChars search_term.data) fields

/-- The sort key of `SimpleRetriever.sort_by_field`: `x.get(field, "")`, so a
missing field sorts as the empty string. -/
def sortKey (field : String) (item : Record) : JValue := (List.lookup field item).getD (.str "")

/-- The boolean "may come first" relation `sorted` uses: ascending keeps `a`
before `b` unless `key b < key a`; with `reverse=True` it keeps `a` before
`b` unless `key a < key b` (CPython implements `reverse` so that equal
elements keep their original order). -/
def sortLe (field : String) (reverse : Bool) (a b : Record) : Bool :=
  if reverse then !(pyCmp (sortKey field a) (sortKey field b) == some .lt)
  else !(pyCmp (sortKey field b) (sortKey field a) == some .lt)

/-- All the keys in the list are pairwise comparable under Python `<`. -/
def keysComparable : List JValue → Bool
  | [] => true
  | k :: ks => ks.all (fun k' => (pyCmp k k').isSome) && keysComparable ks

/-- `SimpleRetriever.sort_by_field`: CPython's `sorted` is a stable merge
sort comparing keys with `<`; a comparison between incomparable keys raises
`TypeError`, which the source catches and answers with the input list
unchanged. A sort of a list whose keys are pairwise comparable performs only
comparisons that succeed, and a list holding an incomparable pair of keys
cannot be sorted without comparing one such pair; the two outcomes are
modelled by the comparability guard. -/
def sort_by_field (items : List Record) (field : String) (reverse : Bool) :
    List Record :=
  if keysComparable (items.map (sortKey field)) then items.mergeSort (sortLe field reverse)
  else items

/-- `SimpleRetriever.limit_results`: Python slicing `items[:limit]`,
including the negative-limit convention counting from the end. -/
def limit_results (items : List Record) (limit : Int) : List Record :=
  if 0 ≤ limit then items.take limit.toNat
  else items.take (items.length - (-limit).toNat)

/-- `SimpleRetriever.get_recent`: sort by the timestamp field in reverse and
take the first `limit` items. -/
def get_recent (items : List Record) (timestamp_field : String)
    (limit : Int) : List Record :=
  limit_results (sort_by_field items timestamp_field true) limit

end SimpleRetriever

/-- The four lowercase-hex digits of `n < 0x10000`, most significant first,
as `json.dumps` writes a `\\u` escape. -/
def escHex4 (n : Nat) : List Char :=
  [digitChar2 (n / 4096 % 16), digitChar2 (n / 256 % 16), digitChar2 (n / 16 % 16),
    digitChar2 (n % 16)]

/-- How `json.dumps` (with its default `ensure_ascii=True`) renders one
character of a string: escape the double quote and the backslash, shorten
the five control characters with named escapes, keep printable ASCII, and
render everything else as `\\u` escapes, astral characters as a surrogate
pair. -/
def jsonEscChar (c : Char) : List Char :=
  if c = dquote then [bslash, dquote]
  else if c = bslash then [bslash, bslash]
  else if c.toNat = 8 then [bslash, 'b']
  else if c.toNat = 9 then [bslash, 't']
  else if c.toNat = 10 then [bslash, 'n']
  else if c.toNat = 12 then [bslash, 'f']
  else if c.toNat = 13 then [bslash, 'r']
  else if 32 ≤ c.toNat && c.toNat ≤ 126 then [c]
  else if c.toNat < 65536 then bslash :: 'u' :: escHex4 c.toNat
  else
    bslash :: 'u' :: escHex4 (55296 + (c.toNat - 65536) / 1024) ++
      bslash :: 'u' :: escHex4 (56320 + (c.toNat - 65536) % 1024)

/-- A JSON string literal: the escaped characters between double quotes. -/
def jsonEscStr (s : String) : List Char := dquote :: s.data.flatMap jsonEscChar ++ [dquote]

mutual

/-- The wire form `json.dumps(·, default=str)` produces for a supported
value, with the default separators `", "` and `": "`. The `default=str`
fallback never fires on supported values, so it does not appear here. -/
def printJson : JValue → List Char
  | .null => "null".data
  | .bool true => "true".data
  | .bool false => "false".data
  | .num n => intDigits n
  | .str s => jsonEscStr s
  | .arr [] => "[]".data
  | .arr (x :: xs) => '[' :: (printJson x ++ printArrTail xs ++ [']'])
  | .obj [] => [lbrace, rbrace]
  | .obj ((k, v) :: fs) =>
    lbrace :: (jsonEscStr k ++ ':' :: ' ' :: printJson v ++ printObjTail fs ++ [rbrace])

/-- The remaining elements of a printed JSON array, each preceded by the
default element separator `", "`. -/
def printArrTail : List JValue → List Char
  | [] => []
  | y :: ys => ',' :: ' ' :: (printJson y ++ printArrTail ys)

/-- The remaining members of a printed JSON object, each preceded by `", "`
and rendered as `"key": value`. -/
def printObjTail : List (String × JValue) → List Char
  | [] => []
  | (k, v) :: fs => ',' :: ' ' :: (jsonEscStr k ++ ':' :: ' ' :: printJson v ++ printObjTail fs)

end

/-- `serialize_data` of `memoryman/utils/serialization.py`:
`json.dumps(data, default=str)` on a record. -/
def serialize_data (data : Record) : String := String.mk (printJson (.obj data))

/-- JSON whitespace: space, tab, line feed, carriage return. -/
def isWsChar (c : Char) : Bool := c.toNat = 32 || c.toNat = 9 || c.toNat = 10 || c.toNat = 13

/-- Drop leading JSON whitespace. -/
def skipWs (cs : List Char) : List Char := cs.dropWhile isWsChar

/-- The numeric value of a decimal digit character. -/
def digitVal (c : Char) : Nat := c.toNat - 48

/-- Hexadecimal digit test, either case. -/
def isHexDig (c : Char) : Bool :=
  c.isDigit || (97 ≤ c.toNat && c.toNat ≤ 102) || (65 ≤ c.toNat && c.toNat ≤ 70)

/-- The numeric value of a hexadecimal digit character, either case. -/
def hexVal (c : Char) : Nat :=
  if c.toNat ≤ 57 then c.toNat - 48 else if c.toNat ≤ 70 then c.toNat - 55 else c.toNat - 87

/-- Read exactly four hexadecimal digits of a `\\u` escape. -/
def readHex4 : List Char → Option (Nat × List Char)
  | a :: b :: c :: d :: rest =>
    if isHexDig a && isHexDig b && isHexDig c && isHexDig d then
      some ((((hexVal a) * 16 + hexVal b) * 16 + hexVal c) * 16 + hexVal d, rest)
    else none
  | _ => none

/-- Read a run of decimal digits as a natural number. Numbers are modelled
as integers, so a continuation that would make the literal a float
(fraction or exponent, which `json.loads` would parse as a Python float)
falls outside the model and is rejected. -/
def readNatNum (cs : List Char) : Option (Nat × List Char) :=
  match cs.span (fun c => c.isDigit) with
  | ([], _) => none
  | (ds, rest) =>
    let n := ds.foldl (fun a c => a * 10 + digitVal c) 0
    match rest with
    | c :: _ => if c = '.' || c = 'e' || c = 'E' then none else some (n, rest)
    | [] => some (n, [])

/-- Insert one parsed member into a Python dict under construction: a
repeated key overwrites the value in place (keeping the first occurrence's
position), a new key is appended, as CPython dicts behave. -/
def dictInsert (fs : List (String × JValue)) (k : String) (v : JValue) :
    List (String × JValue) :=
  if fs.any (fun kv => kv.1 == k) then fs.map (fun kv => if kv.1 == k then (k, v) else kv)
  else fs ++ [(k, v)]

/-- Build the Python dict from the object members in parse order. -/
def dictOfPairs (ps : List (String × JValue)) : List (String × JValue) :=
  ps.foldl (fun acc kv => dictInsert acc kv.1 kv.2) []

mutual

/--
Recursive-descent JSON value parser modelling `json.loads` (strict mode),
structured on a fuel argument that `deserialize_data` supplies as the input
length plus one — every recursive call is separated from the previous one by
at least one consumed character, so the fuel never runs out before the
input. Two deliberate model restrictions, both outside the supported value
kinds: number literals continuing as floats are rejected (numbers are
modelled as integers), and a lone `\\u` surrogate escape is rejected (its
decoding is not a Unicode scalar value).
-/
def parseJson : Nat → List Char → Option (JValue × List Char)
  | 0, _ => none
  | fuel + 1, cs =>
    match cs with
    | [] => none
    | c :: rest =>
      if c = 'n' then
        match rest with
        | 'u' :: 'l' :: 'l' :: rest' => some (.null, rest')
        | _ => none
      else if c = 't' then
        match rest with
        | 'r' :: 'u' :: 'e' :: rest' => some (.bool true, rest')
        | _ => none
      else if c = 'f' then
        match rest with
        | 'a' :: 'l' :: 's' :: 'e' :: rest' => some (.bool false, rest')
        | _ => none
      else if c = '-' then
        match readNatNum rest with
        | some (n, rest') => some (.num (-(n : Int)), rest')
        | none => none
      else if c = dquote then
        match parseStrBody fuel rest with
        | some (s, rest') => some (.str (String.mk s), rest')
        | none => none
      else if c = '[' then
        let cs1 := skipWs rest
        if cs1.headD ' ' = ']' then some (.arr [], cs1.tail)
        else
          match parseJson fuel cs1 with
          | some (v, r2) =>
            match parseArrTail fuel (skipWs r2) with
            | some (vs, r3) => some (.arr (v :: vs), r3)
            | none => none
          | none => none
      else if c = lbrace then
        let cs1 := skipWs rest
        if cs1.headD ' ' = rbrace then some (.obj [], cs1.tail)
        else
          match parseMember fuel cs1 with
          | some (kv, r2) =>
            match parseObjTail fuel (skipWs r2) with
            | some (kvs, r3) => some (.obj (dictOfPairs (kv :: kvs)), r3)
            | none => none
          | none => none
      else if c.isDigit then
        match readNatNum (c :: rest) with
        | some (n, rest') => some (.num (n : Int), rest')
        | none => none
      else none

/-- One `"key": value` member of a JSON object. -/
def parseMember : Nat → List Char → Option ((String × JValue) × List Char)
  | 0, _ => none
  | fuel + 1, cs =>
    match cs with
    | c :: rest =>
      if c = dquote then
        match parseStrBody fuel rest with
        | some (k, r1) =>
          match skipWs r1 with
          | ':' :: r2 =>
            match parseJson fuel (skipWs r2) with
            | some (v, r3) => some ((String.mk k, v), r3)
            | none => none
          | _ => none
        | none => none
      else none
    | [] => none

/-- The rest of a JSON array after a parsed element: a closing bracket, or a
comma followed by the next element. -/
def parseArrTail : Nat → List Char → Option (List JValue × List Char)
  | 0, _ => none
  | fuel + 1, cs =>
    match cs with
    | [] => none
    | c :: rest =>
      if c = ']' then some ([], rest)
      else if c = ',' then
        match parseJson fuel (skipWs rest) with
        | some (v, r2) =>
          match parseArrTail fuel (skipWs r2) with
          | some (vs, r3) => some (v :: vs, r3)
          | none => none
        | none => none
      else none

/-- The rest of a JSON object after a parsed member: a closing brace, or a
comma followed by the next member. -/
def parseObjTail : Nat → List Char → Option (List (String × JValue) × List Char)
  | 0, _ => none
  | fuel + 1, cs =>
    match cs with
    | c :: rest =>
      if c = rbrace then some ([], rest)
      else if c = ',' then
        match parseMember fuel (skipWs rest) with
        | some (kv, r2) =>
          match parseObjTail fuel (skipWs r2) with
          | some (kvs, r3) => some (kv :: kvs, r3)
          | none => none
        | none => none
      else none
    | [] => none

/-- The body of a JSON string literal after its opening quote, strict mode:
raw control characters are rejected, escapes are decoded, surrogate pairs
are combined. -/
def parseStrBody : Nat → List Char → Option (List Char × List Char)
  | 0, _ => none
  | fuel + 1, cs =>
    match cs with
    | [] => none
    | c :: rest =>
      if c = dquote then some ([], rest)
      else if c = bslash then
        match rest with
        | [] => none
        | e :: rest' =>
          if e = dquote || e = bslash || e = '/' then
            match parseStrBody fuel rest' with
            | some (s, r) => some (e :: s, r)
            | none => none
          else if e = 'b' then
            match parseStrBody fuel rest' with
            | some (s, r) => some (Char.ofNat 8 :: s, r)
            | none => none
          else if e = 'f' then
            match parseStrBody fuel rest' with
            | some (s, r) => some (Char.ofNat 12 :: s, r)
            | none => none
          else if e = 'n' then
            match parseStrBody fuel rest' with
            | some (s, r) => some (Char.ofNat 10 :: s, r)
            | none => none
          else if e = 'r' then
            match parseStrBody fuel rest' with
            | some (s, r) => some (Char.ofNat 13 :: s, r)
            | none => none
          else if e = 't' then
            match parseStrBody fuel rest' with
            | some (s, r) => some (Char.ofNat 9 :: s, r)
            | none => none
          else if e = 'u' then
            match readHex4 rest' with
            | some (n, r1) =>
              if 55296 ≤ n && n ≤ 56319 then
                match r1 with
                | b1 :: u1 :: r2 =>
                  if b1 = bslash && u1 = 'u' then
                    match readHex4 r2 with
                    | some (m, r3) =>
                      if 56320 ≤ m && m ≤ 57343 then
                        match parseStrBody fuel r3 with
                        | some (s, r) =>
                          some (Char.ofNat (65536 + (n - 55296) * 1024 + (m - 56320)) :: s, r)
                        | none => none
                      else none
                    | none => none
                  else none
                | _ => none
              else if 56320 ≤ n && n ≤ 57343 then none
              else
                match parseStrBody fuel r1 with
                | some (s, r) => some (Char.ofNat n :: s, r)
                | none => none
            | none => none
          else none
      else if c.toNat < 32 then none
      else
        match parseStrBody fuel rest with
        | some (s, r) => some (c :: s, r)
        | none => none

end

/-- `deserialize_data` of `memoryman/utils/serialization.py`:
`json.loads(data_str)` — parse one JSON value surrounded by optional
whitespace; anything else raises, modelled as `none`. -/
def deserialize_data (data_str : String) : Option JValue :=
  match parseJson (data_str.length + 1) (skipWs data_str.data) with
  | some (v, rest) => if skipWs rest = [] then some v else none
  | none => none

/-- The error kinds of the storage layer, as named by the design:
`ClosedBackendError` for an operation on a closed backend, `EncodingError`
for a payload the codec cannot consume. -/
inductive BackendError where
  | closedBackend : BackendError
  | encoding : BackendError
deriving DecidableEq

/-- One row of the `memory_data` table: `(memory_id, key, data, created_at,
updated_at)` with the payload in its codec-encoded text form. -/
structure StoredRow where
  mem_id : String
  key : String
  data : String
  created_at : Nat
  updated_at : Nat
deriving DecidableEq

/-- The backend state: the `memories` tracking table (one row per namespace
with its creation time), the `memory_data` rows in rowid (insertion) order,
and the connection flag. Modelled from the spec: the `Open`/`Closed`
lifecycle guard lives in the `sqlite3` connection object (operations on a
closed connection raise `ProgrammingError`, a second `close()` is accepted
silently), which the repository uses but does not define; it is modelled by
`isOpen`. -/
structure DB where
  memories : List (String × Nat)
  rows : List StoredRow
  isOpen : Bool
deriving DecidableEq

namespace SQLiteStorage

/-- The row for `(memory_id, key)` — the `UNIQUE(memory_id, key)` pair. -/
def rowMatches (memory_id key : String) (row : StoredRow) : Bool :=
  row.mem_id == memory_id && row.key == key

/-- `SQLiteStorage.store`: ensure the namespace tracking entry exists
(`INSERT OR IGNORE`), serialize the record, then insert the row or, on
conflict of `(memory_id, key)`, replace its payload and refresh
`updated_at` in place (`ON CONFLICT DO UPDATE`), committing before
returning. `now` stands for the database's `CURRENT_TIMESTAMP`. -/
def store (db : DB) (memory_id key : String) (data : Record) (now : Nat) :
    Except BackendError DB :=
  if !db.isOpen then .error .closedBackend
  else
    let memories :=
      if db.memories.any (fun m => m.1 == memory_id) then db.memories
      else db.memories ++ [(memory_id, now)]
    let serialized := serialize_data data
    let rows :=
      if db.rows.any (rowMatches memory_id key) then
        db.rows.map fun row =>
          if rowMatches memory_id key row then
            { row with data := serialized, updated_at := now }
          else row
      else db.rows ++ [⟨memory_id, key, serialized, now, now⟩]
    .ok { db with memories := memories, rows := rows }

/-- `SQLiteStorage.retrieve`: point lookup; decode the payload when the row
exists, report absence as `none` rather than an error. A payload the codec
cannot consume raises (an `EncodingError`). -/
def retrieve (db : DB) (memory_id key : String) : Except BackendError (Option JValue) :=
  if !db.isOpen then .error .closedBackend
  else
    match db.rows.find? (rowMatches memory_id key) with
    | some row =>
      match deserialize_data row.data with
      | some v => .ok (some v)
      | none => .error .encoding
    | none => .ok none

/-- `item.get(field)` as `query` applies a filter to a decoded payload. A
decoded payload that is not a dict would make Python raise
`AttributeError`; such payloads arise only from corrupted rows, and no
theorem below exercises the filter path on them. -/
def jGet (v : JValue) (field : String) : JValue :=
  match v with
  | .obj fs => (List.lookup field fs).getD .null
  | _ => .null

/-- The list comprehension `[deserialize_data(row["data"]) for row in rows]`:
decode every payload in order, failing the whole computation at the first
payload the codec cannot consume. -/
def decodeAll : List StoredRow → Option (List JValue)
  | [] => some []
  | row :: rest =>
    match deserialize_data row.data with
    | none => none
    | some v =>
      match decodeAll rest with
      | none => none
      | some vs => some (v :: vs)

/-- `SQLiteStorage.query`: enumerate every row of the namespace, decode each
payload — a payload the codec cannot consume raises out of the list
comprehension, aborting the whole call — then apply the filters in order,
keeping the items whose value at each filter field is `==` to the filter
value. -/
def query (db : DB) (memory_id : String) (filters : List (String × JValue)) :
    Except BackendError (List JValue) :=
  if !db.isOpen then .error .closedBackend
  else
    match decodeAll (db.rows.filter (fun row => row.mem_id == memory_id)) with
    | none => .error .encoding
    | some all_data =>
      .ok (filters.foldl
        (fun result fv => result.filter (fun item => pyEq (jGet item fv.1) fv.2)) all_data)

/-- `SQLiteStorage.delete`: remove the row for `(memory_id, key)` and report
through `cursor.rowcount` whether anything was removed. -/
def delete (db : DB) (memory_id key : String) : Except BackendError (Bool × DB) :=
  if !db.isOpen then .error .closedBackend
  else
    .ok (db.rows.any (rowMatches memory_id key),
      { db with rows := db.rows.filter (fun row => !(rowMatches memory_id key row)) })

/-- `SQLiteStorage.close`: close the connection. Closing an already-closed
connection is accepted silently. -/
def close (db : DB) : DB := { db with isOpen := false }

end SQLiteStorage

/-- The claim's match condition when a field list is supplied: some listed
field is present and its lower-cased textual form contains the lower-cased
term. -/
def listedFieldMatch (item : Record) (term : String) (fs : List String) : Prop :=
  ∃ f ∈ fs, ∃ v, List.lookup f item = some v ∧
    SimpleRetriever.lowerChars term.data <:+: SimpleRetriever.lowerChars (pyStrChars v)

/-- The claim's match condition without a field list: some string-valued
field contains the lower-cased term. -/
def stringFieldMatch (item : Record) (term : String) : Prop :=
  ∃ kv ∈ item, ∃ s, kv.2 = JValue.str s ∧
    SimpleRetriever.lowerChars term.data <:+: SimpleRetriever.lowerChars s.data

/-! ## Generic sorting helpers

`List.sorted_mergeSort` and `List.pair_sublist_mergeSort` ask for
transitivity and totality of the comparison over the whole type; the Python
comparison only enjoys them on the elements actually being sorted. These
helpers localise the hypotheses to the list via its `attach`. -/

theorem sublist_lift_attach {α : Type _} :
    ∀ (l s : List α), s.Sublist l →
      ∃ s' : List {x // x ∈ l}, s'.map Subtype.val = s ∧ s'.Sublist l.attach
  | [], s, h => by
    have : s = [] := List.sublist_nil.mp h
    exact ⟨[], by simp [this], List.nil_sublist _⟩
  | x :: t, s, h => by
    rcases List.sublist_cons_iff.mp h with h' | ⟨r, rfl, hr⟩
    · obtain ⟨s', hmap, hsub⟩ := sublist_lift_attach t s h'
      refine ⟨s'.map (fun y => ⟨y.1, List.mem_cons_of_mem x y.2⟩), ?_, ?_⟩
      · simp [← hmap, Function.comp]
      · rw [List.attach_cons]
        exact List.Sublist.cons _ (hsub.map _)
    · obtain ⟨r', hmap, hsub⟩ := sublist_lift_attach t r hr
      refine ⟨⟨x, List.mem_cons_self x t⟩ :: r'.map (fun y => ⟨y.1, List.mem_cons_of_mem x y.2⟩),
        ?_, ?_⟩
      · simp [← hmap, Function.comp]
      · rw [List.attach_cons]
        exact List.Sublist.cons₂ _ (hsub.map _)

theorem pairwise_mergeSort_of_local {α : Type _} (le : α → α → Bool) (l : List α)
    (htrans : ∀ a ∈ l, ∀ b ∈ l, ∀ c ∈ l, le a b = true → le b c = true → le a c = true)
    (htotal : ∀ a ∈ l, ∀ b ∈ l, (le a b || le b a) = true) :
    (l.mergeSort le).Pairwise (fun a b => le a b = true) := by
  have hmap : (l.attach.mergeSort (fun a b => le a.1 b.1)).map Subtype.val = l.mergeSort le := by
    rw [List.map_mergeSort (s := le) (f := Subtype.val) (fun a _ b _ => rfl),
      List.attach_map_subtype_val]
  have hs : (l.attach.mergeSort (fun a b => le a.1 b.1)).Pairwise
      (fun a b : {x // x ∈ l} => le a.1 b.1 = true) :=
    List.sorted_mergeSort
      (fun a b c => htrans a.1 a.2 b.1 b.2 c.1 c.2)
      (fun a b => htotal a.1 a.2 b.1 b.2) l.attach
  have := List.Pairwise.map (f := Subtype.val)
    (R := fun a b : {x // x ∈ l} => le a.1 b.1 = true)
    (S := fun a b => le a b = true) (fun a b h => h) hs
  rwa [hmap] at this

theorem pair_sublist_mergeSort_of_local {α : Type _} (le : α → α → Bool) (l : List α)
    (htrans : ∀ a ∈ l, ∀ b ∈ l, ∀ c ∈ l, le a b = true → le b c = true → le a c = true)
    (htotal : ∀ a ∈ l, ∀ b ∈ l, (le a b || le b a) = true)
    (a b : α) (hab : le a b = true) (h : [a, b].Sublist l) :
    [a, b].Sublist (l.mergeSort le) := by
  obtain ⟨s', hmap, hsub⟩ := sublist_lift_attach l [a, b] h
  match s', hmap with
  | [a', b'], hmap =>
    simp only [List.map_cons, List.map_nil, List.cons.injEq, and_true] at hmap
    obtain ⟨ha, hb⟩ := hmap
    subst ha
    subst hb
    have hpair : [a', b'].Sublist (l.attach.mergeSort (fun a b => le a.1 b.1)) :=
      List.pair_sublist_mergeSort
        (fun a b c => htrans a.1 a.2 b.1 b.2 c.1 c.2)
        (fun a b => htotal a.1 a.2 b.1 b.2) hab hsub
    have h2 := hpair.map Subtype.val
    rwa [List.map_mergeSort (s := le) (f := Subtype.val) (fun a _ b _ => rfl),
      List.attach_map_subtype_val] at h2

/-! ## Retrieval engine: subsequence and filtering claims -/

theorem filter_by_multiple_sublist (filters : List (String × JValue)) (items : List Record) :
    (SimpleRetriever.filter_by_multiple items filters).Sublist items := by
  induction filters generalizing items with
  | nil => exact List.Sublist.refl items
  | cons fv rest ih =>
    have h1 : (SimpleRetriever.filter_by_field items fv.1 fv.2).Sublist items :=
      List.filter_sublist items
    have h2 := ih (SimpleRetriever.filter_by_field items fv.1 fv.2)
    exact (h2.trans h1)

/-- C10: `filter_by_field`, `filter_by_multiple`, `search_text` and
`limit_results` each return a subsequence of their input list — every output
record is drawn from the input, relative order is preserved, and no
duplicates are introduced — so the composed filter → search → limit pipeline
is ordered by the input enumeration order. -/
theorem retrieval_ops_sublist (items : List Record) (field : String) (value : JValue)
    (filters : List (String × JValue)) (term : String) (fields : Option (List String))
    (n : Int) :
    (SimpleRetriever.filter_by_field items field value).Sublist items ∧
    (SimpleRetriever.filter_by_multiple items filters).Sublist items ∧
    (SimpleRetriever.search_text items term fields).Sublist items ∧
    (SimpleRetriever.limit_results items n).Sublist items := by
  refine ⟨List.filter_sublist items, filter_by_multiple_sublist filters items,
    List.filter_sublist items, ?_⟩
  unfold SimpleRetriever.limit_results
  split
  · exact List.take_sublist _ _
  · exact List.take_sublist _ _

theorem pyEq_null_iff (v : JValue) : pyEq JValue.null v = true ↔ v = JValue.null := by
  cases v <;> simp [pyEq, asInt]

/-- C7 as stated is false at a null filter value: the record `{}` has no
field `"f"`, yet `filter_by_field` keeps it when the filter value is null,
because Python's `item.get(field)` defaults to `None` and `None == None`. -/
theorem filter_by_field_counterexample :
    SimpleRetriever.filter_by_field [([] : Record)] "f" JValue.null = [([] : Record)] ∧
    List.lookup "f" ([] : Record) = none := by
  constructor
  · simp [SimpleRetriever.filter_by_field, pyEq]
  · rfl

/-- C7 amended: `filter_by_field` keeps exactly the records whose value at
the field — a missing field reading as `None`/null — is Python-`==` to the
filter value; hence a record missing the field is excluded whenever the
filter value is not null, and kept when it is null. -/
theorem filter_by_field_keeps_iff (items : List Record) (field : String) (value : JValue)
    (r : Record) :
    (r ∈ SimpleRetriever.filter_by_field items field value ↔
      r ∈ items ∧ pyEq ((List.lookup field r).getD .null) value = true) ∧
    (List.lookup field r = none →
      (r ∈ SimpleRetriever.filter_by_field items field value ↔
        r ∈ items ∧ value = JValue.null)) := by
  constructor
  · simp [SimpleRetriever.filter_by_field, List.mem_filter]
  · intro hnone
    simp only [SimpleRetriever.filter_by_field, List.mem_filter, hnone, Option.getD_none]
    have : pyEq JValue.null value = true ↔ value = JValue.null := pyEq_null_iff value
    constructor
    · rintro ⟨hm, hp⟩
      exact ⟨hm, this.mp hp⟩
    · rintro ⟨hm, rfl⟩
      exact ⟨hm, by simp [pyEq]⟩

/-- Witness for C7's amended theorem at the record `{}`, field `"f"` and
filter value null. -/
theorem filter_by_field_keeps_iff_witness :
    (([] : Record) ∈ SimpleRetriever.filter_by_field [([] : Record)] "f" JValue.null ↔
      ([] : Record) ∈ [([] : Record)] ∧
        pyEq ((List.lookup "f" ([] : Record)).getD .null) JValue.null = true) ∧
    (List.lookup "f" ([] : Record) = none →
      (([] : Record) ∈ SimpleRetriever.filter_by_field [([] : Record)] "f" JValue.null ↔
        ([] : Record) ∈ [([] : Record)] ∧ JValue.null = JValue.null)) :=
  filter_by_field_keeps_iff [([] : Record)] "f" JValue.null []

/-! ## Backend lifecycle and point operations -/

/-- C5: after `close()`, every subsequent `store`, `retrieve` or `query`
call on the backend fails with `ClosedBackendError` — not a silent no-op and
not a success — while a second `close()` is accepted and leaves the state
unchanged. -/
theorem closed_backend_guard (db : DB) (ns k : String) (r : Record) (now : Nat)
    (filters : List (String × JValue)) :
    SQLiteStorage.store (SQLiteStorage.close db) ns k r now =
      Except.error BackendError.closedBackend ∧
    SQLiteStorage.retrieve (SQLiteStorage.close db) ns k =
      Except.error BackendError.closedBackend ∧
    SQLiteStorage.query (SQLiteStorage.close db) ns filters =
      Except.error BackendError.closedBackend ∧
    SQLiteStorage.close (SQLiteStorage.close db) = SQLiteStorage.close db := by
  refine ⟨?_, ?_, ?_, rfl⟩ <;>
    simp [SQLiteStorage.store, SQLiteStorage.retrieve, SQLiteStorage.query, SQLiteStorage.close]

/-- C9: `delete` removes the matching row if present and returns whether one
existed; deleting again returns `false` and leaves the state exactly as
after the first call. -/
theorem delete_idempotent (db : DB) (ns k : String) (h : db.isOpen = true) :
    ∃ b db1, SQLiteStorage.delete db ns k = Except.ok (b, db1) ∧
      b = db.rows.any (SQLiteStorage.rowMatches ns k) ∧
      db1.rows = db.rows.filter (fun row => !(SQLiteStorage.rowMatches ns k row)) ∧
      db1.isOpen = true ∧
      SQLiteStorage.delete db1 ns k = Except.ok (false, db1) := by
  refine ⟨db.rows.any (SQLiteStorage.rowMatches ns k),
    { db with rows := db.rows.filter (fun row => !(SQLiteStorage.rowMatches ns k row)) },
    ?_, rfl, rfl, h, ?_⟩
  · simp [SQLiteStorage.delete, h]
  · have hany : (db.rows.filter (fun row => !(SQLiteStorage.rowMatches ns k row))).any
        (SQLiteStorage.rowMatches ns k) = false := by
      simp only [List.any_filter]
      simp
    have hfilter : (db.rows.filter (fun row => !(SQLiteStorage.rowMatches ns k row))).filter
        (fun row => !(SQLiteStorage.rowMatches ns k row)) =
        db.rows.filter (fun row => !(SQLiteStorage.rowMatches ns k row)) := by
      rw [List.filter_filter]
      simp
    simp [SQLiteStorage.delete, h, hany, hfilter]

/-- Witness for C9 at a one-row backend: the first delete reports `true`,
the second reports `false` on the unchanged state. -/
theorem delete_idempotent_witness :
    ∃ b db1, SQLiteStorage.delete
        ⟨[("ns", 0)], [⟨"ns", "k", "x", 0, 0⟩], true⟩ "ns" "k" = Except.ok (b, db1) ∧
      b = (DB.mk [("ns", 0)] [⟨"ns", "k", "x", 0, 0⟩] true).rows.any
        (SQLiteStorage.rowMatches "ns" "k") ∧
      db1.rows = (DB.mk [("ns", 0)] [⟨"ns", "k", "x", 0, 0⟩] true).rows.filter
        (fun row => !(SQLiteStorage.rowMatches "ns" "k" row)) ∧
      db1.isOpen = true ∧
      SQLiteStorage.delete db1 "ns" "k" = Except.ok (false, db1) :=
  delete_idempotent ⟨[("ns", 0)], [⟨"ns", "k", "x", 0, 0⟩], true⟩ "ns" "k" rfl

/-- C6: `store` on an existing `(namespace, key)` replaces exactly that
row's payload and refreshes its `updated_at`, preserving its `created_at`
and leaving every other row (in every namespace) unchanged in place; on a
new key it appends a fresh row, and the namespace tracking entry is created
only if absent. -/
theorem store_replace_semantics (db : DB) (ns k : String) (r : Record) (now : Nat)
    (h : db.isOpen = true) :
    ∃ db', SQLiteStorage.store db ns k r now = Except.ok db' ∧ db'.isOpen = true ∧
      (db'.memories = if db.memories.any (fun m => m.1 == ns) then db.memories
        else db.memories ++ [(ns, now)]) ∧
      (db.rows.any (SQLiteStorage.rowMatches ns k) = true →
        db'.rows = db.rows.map (fun row => if SQLiteStorage.rowMatches ns k row then
          { row with data := serialize_data r, updated_at := now } else row) ∧
        db'.rows.length = db.rows.length ∧
        (∀ row ∈ db.rows, SQLiteStorage.rowMatches ns k row = false → row ∈ db'.rows) ∧
        (∀ row ∈ db.rows, SQLiteStorage.rowMatches ns k row = true →
          (⟨row.mem_id, row.key, serialize_data r, row.created_at, now⟩ : StoredRow)
            ∈ db'.rows)) ∧
      (db.rows.any (SQLiteStorage.rowMatches ns k) = false →
        db'.rows = db.rows ++ [⟨ns, k, serialize_data r, now, now⟩]) := by
  refine ⟨{ db with
      memories := if db.memories.any (fun m => m.1 == ns) then db.memories
        else db.memories ++ [(ns, now)],
      rows := if db.rows.any (SQLiteStorage.rowMatches ns k) then
          db.rows.map (fun row => if SQLiteStorage.rowMatches ns k row then
            { row with data := serialize_data r, updated_at := now } else row)
        else db.rows ++ [⟨ns, k, serialize_data r, now, now⟩] }, ?_, h, rfl, ?_, ?_⟩
  · simp [SQLiteStorage.store, h]
  · intro hexists
    show (if db.rows.any (SQLiteStorage.rowMatches ns k) = true then _ else _) = _ ∧ _
    rw [if_pos hexists]
    refine ⟨rfl, by simp, ?_, ?_⟩
    · intro row hmem hmiss
      simp only [List.mem_map]
      exact ⟨row, hmem, by simp [hmiss]⟩
    · intro row hmem hmatch
      simp only [List.mem_map]
      exact ⟨row, hmem, by simp [hmatch]⟩
  · intro habsent
    show (if db.rows.any (SQLiteStorage.rowMatches ns k) = true then _ else _) = _
    rw [if_neg (by simp [habsent])]

/-- Witness for C6 at a one-row backend (replacing an existing key). -/
theorem store_replace_semantics_witness :
    ∃ db', SQLiteStorage.store
        ⟨[("ns", 0)], [⟨"ns", "k", "x", 0, 0⟩], true⟩ "ns" "k" [] 5 = Except.ok db' ∧
      db'.isOpen = true ∧
      (db'.memories = if (DB.mk [("ns", 0)] [⟨"ns", "k", "x", 0, 0⟩] true).memories.any
          (fun m => m.1 == "ns") then (DB.mk [("ns", 0)] [⟨"ns", "k", "x", 0, 0⟩] true).memories
        else (DB.mk [("ns", 0)] [⟨"ns", "k", "x", 0, 0⟩] true).memories ++ [("ns", 5)]) ∧
      ((DB.mk [("ns", 0)] [⟨"ns", "k", "x", 0, 0⟩] true).rows.any
          (SQLiteStorage.rowMatches "ns" "k") = true →
        db'.rows = (DB.mk [("ns", 0)] [⟨"ns", "k", "x", 0, 0⟩] true).rows.map
          (fun row => if SQLiteStorage.rowMatches "ns" "k" row then
            { row with data := serialize_data [], updated_at := 5 } else row) ∧
        db'.rows.length = (DB.mk [("ns", 0)] [⟨"ns", "k", "x", 0, 0⟩] true).rows.length ∧
        (∀ row ∈ (DB.mk [("ns", 0)] [⟨"ns", "k", "x", 0, 0⟩] true).rows,
          SQLiteStorage.rowMatches "ns" "k" row = false → row ∈ db'.rows) ∧
        (∀ row ∈ (DB.mk [("ns", 0)] [⟨"ns", "k", "x", 0, 0⟩] true).rows,
          SQLiteStorage.rowMatches "ns" "k" row = true →
          (⟨row.mem_id, row.key, serialize_data [], row.created_at, 5⟩ : StoredRow)
            ∈ db'.rows)) ∧
      ((DB.mk [("ns", 0)] [⟨"ns", "k", "x", 0, 0⟩] true).rows.any
          (SQLiteStorage.rowMatches "ns" "k") = false →
        db'.rows = (DB.mk [("ns", 0)] [⟨"ns", "k", "x", 0, 0⟩] true).rows ++
          [⟨"ns", "k", serialize_data [], 5, 5⟩]) :=
  store_replace_semantics ⟨[("ns", 0)], [⟨"ns", "k", "x", 0, 0⟩], true⟩ "ns" "k" [] 5 rfl

/-! ## Recency ordering -/

theorem pyCmp_num_num (x y : Int) : pyCmp (.num x) (.num y) = some (intCmp x y) := by
  rw [pyCmp] <;> simp [asInt]

theorem sortLe_num_iff (f : String) (a b : Record) (ta tb : Int)
    (hka : SimpleRetriever.sortKey f a = .num ta) (hkb : SimpleRetriever.sortKey f b = .num tb) :
    (SimpleRetriever.sortLe f true a b = true ↔ tb ≤ ta) := by
  simp only [SimpleRetriever.sortLe, if_true, hka, hkb, pyCmp_num_num]
  unfold intCmp
  split_ifs with hlt hgt
  · exact ⟨fun h => absurd h (by decide), fun h => absurd h (by omega)⟩
  · exact ⟨fun _ => by omega, fun _ => by decide⟩
  · exact ⟨fun _ => by omega, fun _ => by decide⟩

/-- C8: `get_recent` is definitionally `limit_results` applied to
`sort_by_field` with `reverse=True`; in particular, for three records
carrying integer timestamps `t1 < t2 < t3`, `get_recent` with limit 2
returns exactly the `t3` record followed by the `t2` record. -/
theorem get_recent_spec :
    (∀ (items : List Record) (tf : String) (n : Int),
      SimpleRetriever.get_recent items tf n =
        SimpleRetriever.limit_results (SimpleRetriever.sort_by_field items tf true) n) ∧
    (∀ (r1 r2 r3 : Record) (t1 t2 t3 : Int),
      List.lookup "timestamp" r1 = some (.num t1) →
      List.lookup "timestamp" r2 = some (.num t2) →
      List.lookup "timestamp" r3 = some (.num t3) →
      t1 < t2 → t2 < t3 →
      SimpleRetriever.get_recent [r1, r2, r3] "timestamp" 2 = [r3, r2]) := by
  constructor
  · intro items tf n
    rfl
  · intro r1 r2 r3 t1 t2 t3 h1 h2 h3 h12 h23
    have hk1 : SimpleRetriever.sortKey "timestamp" r1 = .num t1 := by
      simp [SimpleRetriever.sortKey, h1]
    have hk2 : SimpleRetriever.sortKey "timestamp" r2 = .num t2 := by
      simp [SimpleRetriever.sortKey, h2]
    have hk3 : SimpleRetriever.sortKey "timestamp" r3 = .num t3 := by
      simp [SimpleRetriever.sortKey, h3]
    have hne12 : r1 ≠ r2 := by
      intro he
      rw [he, h2] at h1
      simp at h1
      omega
    have hne13 : r1 ≠ r3 := by
      intro he
      rw [he, h3] at h1
      simp at h1
      omega
    have hne23 : r2 ≠ r3 := by
      intro he
      rw [he, h3] at h2
      simp at h2
      omega
    have hcomp : SimpleRetriever.keysComparable
        ([r1, r2, r3].map (SimpleRetriever.sortKey "timestamp")) = true := by
      simp only [List.map_cons, List.map_nil, hk1, hk2, hk3]
      simp [SimpleRetriever.keysComparable, pyCmp_num_num]
    have hkey : ∀ x ∈ [r1, r2, r3], ∃ t, SimpleRetriever.sortKey "timestamp" x = .num t := by
      intro x hx
      rcases (by simpa using hx : x = r1 ∨ x = r2 ∨ x = r3) with rfl | rfl | rfl
      exacts [⟨t1, hk1⟩, ⟨t2, hk2⟩, ⟨t3, hk3⟩]
    have htrans : ∀ a ∈ [r1, r2, r3], ∀ b ∈ [r1, r2, r3], ∀ c ∈ [r1, r2, r3],
        SimpleRetriever.sortLe "timestamp" true a b = true →
        SimpleRetriever.sortLe "timestamp" true b c = true →
        SimpleRetriever.sortLe "timestamp" true a c = true := by
      intro a ha b hb c hc hab hbc
      obtain ⟨ta, hka⟩ := hkey a ha
      obtain ⟨tb, hkb⟩ := hkey b hb
      obtain ⟨tc, hkc⟩ := hkey c hc
      rw [sortLe_num_iff "timestamp" a b ta tb hka hkb] at hab
      rw [sortLe_num_iff "timestamp" b c tb tc hkb hkc] at hbc
      rw [sortLe_num_iff "timestamp" a c ta tc hka hkc]
      omega
    have htotal : ∀ a ∈ [r1, r2, r3], ∀ b ∈ [r1, r2, r3],
        (SimpleRetriever.sortLe "timestamp" true a b ||
          SimpleRetriever.sortLe "timestamp" true b a) = true := by
      intro a ha b hb
      obtain ⟨ta, hka⟩ := hkey a ha
      obtain ⟨tb, hkb⟩ := hkey b hb
      rcases le_total tb ta with h | h
      · rw [Bool.or_eq_true]
        exact Or.inl ((sortLe_num_iff "timestamp" a b ta tb hka hkb).mpr h)
      · rw [Bool.or_eq_true]
        exact Or.inr ((sortLe_num_iff "timestamp" b a tb ta hkb hka).mpr h)
    have hpair := pairwise_mergeSort_of_local
      (SimpleRetriever.sortLe "timestamp" true) [r1, r2, r3] htrans htotal
    have hperm : ([r1, r2, r3].mergeSort (SimpleRetriever.sortLe "timestamp" true)).Perm
        [r1, r2, r3] := List.mergeSort_perm _ _
    have hlen : ([r1, r2, r3].mergeSort (SimpleRetriever.sortLe "timestamp" true)).length = 3 := by
      rw [hperm.length_eq]
      rfl
    obtain ⟨x, y, z, hxyz⟩ := List.length_eq_three.mp hlen
    have hmemL : ∀ w, w ∈ [x, y, z] ↔ (w = r1 ∨ w = r2 ∨ w = r3) := by
      intro w
      rw [← hxyz, hperm.mem_iff]
      simp
    rw [hxyz] at hpair
    have hlexy : SimpleRetriever.sortLe "timestamp" true x y = true := by
      rcases List.pairwise_cons.mp hpair with ⟨hx, _⟩
      exact hx y (by simp)
    have hlexz : SimpleRetriever.sortLe "timestamp" true x z = true := by
      rcases List.pairwise_cons.mp hpair with ⟨hx, _⟩
      exact hx z (by simp)
    have hleyz : SimpleRetriever.sortLe "timestamp" true y z = true := by
      rcases List.pairwise_cons.mp hpair with ⟨_, hrest⟩
      rcases List.pairwise_cons.mp hrest with ⟨hy, _⟩
      exact hy z (by simp)
    have hle_ts : ∀ a b ta tb, SimpleRetriever.sortKey "timestamp" a = .num ta →
        SimpleRetriever.sortKey "timestamp" b = .num tb →
        SimpleRetriever.sortLe "timestamp" true a b = true → tb ≤ ta := by
      intro a b ta tb hka hkb hab
      exact (sortLe_num_iff "timestamp" a b ta tb hka hkb).mp hab
    have hx3 : x = r3 := by
      by_contra hx3
      have hr3 : r3 ∈ [x, y, z] := (hmemL r3).mpr (Or.inr (Or.inr rfl))
      have hxmem : x ∈ [x, y, z] := by simp
      rcases (hmemL x).mp hxmem with hxv | hxv | hxv
      · rcases (by simpa using hr3 : r3 = x ∨ r3 = y ∨ r3 = z) with he | he | he
        · exact hx3 he.symm
        · have := hle_ts x y t1 t3 (hxv ▸ hk1) (he ▸ hk3) hlexy
          omega
        · have := hle_ts x z t1 t3 (hxv ▸ hk1) (he ▸ hk3) hlexz
          omega
      · rcases (by simpa using hr3 : r3 = x ∨ r3 = y ∨ r3 = z) with he | he | he
        · exact hx3 he.symm
        · have := hle_ts x y t2 t3 (hxv ▸ hk2) (he ▸ hk3) hlexy
          omega
        · have := hle_ts x z t2 t3 (hxv ▸ hk2) (he ▸ hk3) hlexz
          omega
      · exact hx3 hxv
    have hy2 : y = r2 := by
      have hr2 : r2 ∈ [x, y, z] := (hmemL r2).mpr (Or.inr (Or.inl rfl))
      rcases (by simpa using hr2 : r2 = x ∨ r2 = y ∨ r2 = z) with he | he | he
      · exact absurd (he.trans hx3) hne23
      · exact he.symm
      · exfalso
        have hr1 : r1 ∈ [x, y, z] := (hmemL r1).mpr (Or.inl rfl)
        rcases (by simpa using hr1 : r1 = x ∨ r1 = y ∨ r1 = z) with hf | hf | hf
        · exact hne13 (hf.trans hx3)
        · have := hle_ts y z t1 t2 (hf ▸ hk1) (he ▸ hk2) hleyz
          omega
        · exact hne12 (hf.trans he.symm)
    have hz1 : z = r1 := by
      have hr1 : r1 ∈ [x, y, z] := (hmemL r1).mpr (Or.inl rfl)
      rcases (by simpa using hr1 : r1 = x ∨ r1 = y ∨ r1 = z) with hf | hf | hf
      · exact absurd (hf.trans hx3) hne13
      · exact absurd (hf.trans hy2) hne12
      · exact hf.symm
    have hfinal : SimpleRetriever.sort_by_field [r1, r2, r3] "timestamp" true = [r3, r2, r1] := by
      unfold SimpleRetriever.sort_by_field
      rw [if_pos hcomp, hxyz, hx3, hy2, hz1]
    show SimpleRetriever.limit_results
      (SimpleRetriever.sort_by_field [r1, r2, r3] "timestamp" true) 2 = [r3, r2]
    rw [hfinal]
    rfl

/-- Witness for C8 at timestamps 0 < 1 < 2. -/
theorem get_recent_spec_witness :
    SimpleRetriever.get_recent
      [[("timestamp", JValue.num 0)], [("timestamp", JValue.num 1)],
        [("timestamp", JValue.num 2)]] "timestamp" 2 =
      [[("timestamp", JValue.num 2)], [("timestamp", JValue.num 1)]] :=
  get_recent_spec.2 [("timestamp", JValue.num 0)] [("timestamp", JValue.num 1)]
    [("timestamp", JValue.num 2)] 0 1 2 rfl rfl rfl (by omega) (by omega)

/-! ## Text search -/

theorem searchMatches_fields_iff (item : Record) (tl : List Char) (f : String)
    (fs : List String) :
    SimpleRetriever.searchMatches item tl (some (f :: fs)) = true ↔
      ∃ g ∈ f :: fs, ∃ v, List.lookup g item = some v ∧
        tl <:+: SimpleRetriever.lowerChars (pyStrChars v) := by
  simp only [SimpleRetriever.searchMatches, List.any_eq_true]
  constructor
  · rintro ⟨g, hg, hmatch⟩
    refine ⟨g, hg, ?_⟩
    cases hv : List.lookup g item with
    | none => rw [hv] at hmatch; simp at hmatch
    | some v =>
      rw [hv] at hmatch
      exact ⟨v, rfl, by simpa [SimpleRetriever.containsSub] using hmatch⟩
  · rintro ⟨g, hg, v, hv, hinf⟩
    refine ⟨g, hg, ?_⟩
    rw [hv]
    simpa [SimpleRetriever.containsSub] using hinf

theorem searchMatches_all_iff (item : Record) (tl : List Char)
    (fields : Option (List String)) (h : fields = none ∨ fields = some []) :
    SimpleRetriever.searchMatches item tl fields = true ↔
      ∃ kv ∈ item, ∃ s, kv.2 = JValue.str s ∧ tl <:+: SimpleRetriever.lowerChars s.data := by
  have main : SimpleRetriever.searchMatches item tl none = true ↔
      ∃ kv ∈ item, ∃ s, kv.2 = JValue.str s ∧ tl <:+: SimpleRetriever.lowerChars s.data := by
    simp only [SimpleRetriever.searchMatches, List.any_eq_true]
    constructor
    · rintro ⟨kv, hkv, hmatch⟩
      refine ⟨kv, hkv, ?_⟩
      cases hv : kv.2 with
      | str s =>
        rw [hv] at hmatch
        exact ⟨s, rfl, by simpa [SimpleRetriever.containsSub] using hmatch⟩
      | null => rw [hv] at hmatch; simp at hmatch
      | bool b => rw [hv] at hmatch; simp at hmatch
      | num n => rw [hv] at hmatch; simp at hmatch
      | arr l => rw [hv] at hmatch; simp at hmatch
      | obj fs => rw [hv] at hmatch; simp at hmatch
    · rintro ⟨kv, hkv, s, hs, hinf⟩
      refine ⟨kv, hkv, ?_⟩
      rw [hs]
      simpa [SimpleRetriever.containsSub] using hinf
  rcases h with rfl | rfl
  · exact main
  · exact main

/-- C2 as stated is false when the supplied field list is empty: Python's
`if fields:` treats `[]` like an absent field list, so the all-string-fields
scan runs and the record is kept even though no listed field exists. -/
theorem search_text_counterexample :
    SimpleRetriever.search_text [[("a", JValue.str "hello")]] "hello" (some []) =
      [[("a", JValue.str "hello")]] ∧
    ∀ f, f ∈ ([] : List String) → False := by
  refine ⟨?_, by simp⟩
  rfl

/-- C2 amended: for a non-empty term, `search_text` with a **non-empty**
field list keeps a record exactly when the lower-cased textual form of some
listed, present field contains the lower-cased term; with no field list —
or an empty one, which Python's truthiness treats the same way — it keeps a
record exactly when some string-valued field contains the term; and the
result is a subsequence of the input, so each input record occurrence
appears at most once even when several of its fields match. -/
theorem search_text_match_iff (items : List Record) (term : String)
    (fs : List String) (fields : Option (List String)) (r : Record) (hterm : term ≠ "") :
    (fs ≠ [] →
      (r ∈ SimpleRetriever.search_text items term (some fs) ↔
        r ∈ items ∧ listedFieldMatch r term fs)) ∧
    ((fields = none ∨ fields = some []) →
      (r ∈ SimpleRetriever.search_text items term fields ↔
        r ∈ items ∧ stringFieldMatch r term)) ∧
    (SimpleRetriever.search_text items term fields).Sublist items := by
  refine ⟨?_, ?_, List.filter_sublist items⟩
  · intro hne
    match fs, hne with
    | f :: fs', _ =>
      rw [SimpleRetriever.search_text, List.mem_filter]
      rw [searchMatches_fields_iff r (SimpleRetriever.lowerChars term.data) f fs']
      rfl
  · intro h
    rw [SimpleRetriever.search_text, List.mem_filter]
    rw [searchMatches_all_iff r (SimpleRetriever.lowerChars term.data) fields h]
    rfl

/-- Witness for C2's amended theorem: the spec's own example — the term
`"hello"` finds the record valued `"Hello world"` case-insensitively. -/
theorem search_text_match_iff_witness :
    ((["a"] : List String) ≠ [] →
      ([("a", JValue.str "Hello world")] ∈
          SimpleRetriever.search_text
            [[("a", JValue.str "Hello world")], [("a", JValue.str "goodbye")]]
            "hello" (some ["a"]) ↔
        [("a", JValue.str "Hello world")] ∈
            [[("a", JValue.str "Hello world")], [("a", JValue.str "goodbye")]] ∧
          listedFieldMatch [("a", JValue.str "Hello world")] "hello" ["a"])) ∧
    (((none : Option (List String)) = none ∨ (none : Option (List String)) = some []) →
      ([("a", JValue.str "Hello world")] ∈
          SimpleRetriever.search_text
            [[("a", JValue.str "Hello world")], [("a", JValue.str "goodbye")]]
            "hello" none ↔
        [("a", JValue.str "Hello world")] ∈
            [[("a", JValue.str "Hello world")], [("a", JValue.str "goodbye")]] ∧
          stringFieldMatch [("a", JValue.str "Hello world")] "hello")) ∧
    (SimpleRetriever.search_text
        [[("a", JValue.str "Hello world")], [("a", JValue.str "goodbye")]]
        "hello" none).Sublist
      [[("a", JValue.str "Hello world")], [("a", JValue.str "goodbye")]] :=
  search_text_match_iff
    [[("a", JValue.str "Hello world")], [("a", JValue.str "goodbye")]]
    "hello" ["a"] none [("a", JValue.str "Hello world")] (by decide)

/-! ## Enumeration and malformed rows -/

theorem decodeAll_eq_none (l : List StoredRow) (a : StoredRow)
    (ha : a ∈ l) (hf : deserialize_data a.data = none) :
    SQLiteStorage.decodeAll l = none := by
  induction l with
  | nil => cases ha
  | cons x xs ih =>
    rcases List.mem_cons.mp ha with rfl | ha'
    · simp [SQLiteStorage.decodeAll, hf]
    · cases hx : deserialize_data x.data <;>
        simp [SQLiteStorage.decodeAll, hx, ih ha']

/-- C4 as stated is false: with one decodable row (payload `"[1]"`) and one
undecodable row (payload `"oops"`) in the namespace, `query` aborts the
whole enumeration with the decode error instead of skipping the bad row and
returning the decoded remainder — the source deserializes every row in a
list comprehension with no exception handling. -/
theorem query_skip_counterexample :
    SQLiteStorage.query
        ⟨[("ns", 0)], [⟨"ns", "k1", "[1]", 0, 0⟩, ⟨"ns", "k2", "oops", 0, 0⟩], true⟩
        "ns" [] = Except.error BackendError.encoding ∧
    deserialize_data "[1]" = some (JValue.arr [JValue.num 1]) ∧
    deserialize_data "oops" = none ∧
    SQLiteStorage.query
        ⟨[("ns", 0)], [⟨"ns", "k1", "[1]", 0, 0⟩, ⟨"ns", "k2", "oops", 0, 0⟩], true⟩
        "ns" [] ≠ Except.ok [JValue.arr [JValue.num 1]] := by
  refine ⟨rfl, rfl, rfl, ?_⟩
  intro h
  have he : (Except.error BackendError.encoding : Except BackendError (List JValue)) =
      Except.ok [JValue.arr [JValue.num 1]] :=
    Eq.symm rfl |>.trans h
  exact Except.noConfusion he

/-- C4 amended: a namespace enumeration (`query`) over a namespace holding a
row whose payload the codec cannot decode fails with the decode error
(`EncodingError`) for the whole call — the malformed row is not skipped. -/
theorem query_aborts_on_malformed (db : DB) (ns : String)
    (filters : List (String × JValue)) (hopen : db.isOpen = true)
    (hbad : ∃ row ∈ db.rows, row.mem_id = ns ∧ deserialize_data row.data = none) :
    SQLiteStorage.query db ns filters = Except.error BackendError.encoding := by
  obtain ⟨row, hmem, hns, hnone⟩ := hbad
  unfold SQLiteStorage.query
  rw [hopen, if_neg (by simp)]
  have hfmem : row ∈ db.rows.filter (fun r => r.mem_id == ns) := by
    rw [List.mem_filter]
    exact ⟨hmem, by simp [hns]⟩
  rw [decodeAll_eq_none _ row hfmem hnone]

/-- Witness for C4's amended theorem at the two-row backend above. -/
theorem query_aborts_on_malformed_witness :
    SQLiteStorage.query
        ⟨[("ns", 0)], [⟨"ns", "k1", "[1]", 0, 0⟩, ⟨"ns", "k2", "oops", 0, 0⟩], true⟩
        "ns" [] = Except.error BackendError.encoding :=
  query_aborts_on_malformed
    ⟨[("ns", 0)], [⟨"ns", "k1", "[1]", 0, 0⟩, ⟨"ns", "k2", "oops", 0, 0⟩], true⟩
    "ns" [] rfl
    ⟨⟨"ns", "k2", "oops", 0, 0⟩, by simp, rfl, rfl⟩

/-! ## The Python comparison: supporting lemmas

The sort claims need transitivity and totality of the comparison the sort
key order induces, on the values actually compared. These hold on values in
the image of Python's data model (`jvalid`): dict equality is symmetric only
because a Python dict cannot hold one key twice. -/

theorem bool_eq_of_iff {x y : Bool} (h : x = true ↔ y = true) : x = y := by
  cases x <;> cases y <;> simp_all

theorem jvalidList_mem {l : List JValue} {x : JValue} (hl : jvalidList l = true)
    (hx : x ∈ l) : jvalid x = true := by
  induction l with
  | nil => cases hx
  | cons y ys ih =>
    rw [jvalidList, Bool.and_eq_true] at hl
    rcases List.mem_cons.mp hx with rfl | hx'
    · exact hl.1
    · exact ih hl.2 hx'

theorem jvalid_arr_mem {l : List JValue} {x : JValue} (h : jvalid (.arr l) = true)
    (hx : x ∈ l) : jvalid x = true := by
  rw [jvalid] at h
  exact jvalidList_mem h hx

theorem jvalidFields_mem {fs : List (String × JValue)} {kv : String × JValue}
    (hf : jvalidFields fs = true) (hkv : kv ∈ fs) : jvalid kv.2 = true := by
  induction fs with
  | nil => cases hkv
  | cons p ps ih =>
    match p, hf with
    | (k, v), hf =>
      rw [jvalidFields, Bool.and_eq_true] at hf
      rcases List.mem_cons.mp hkv with rfl | hkv'
      · exact hf.1
      · exact ih hf.2 hkv'

theorem jvalid_obj_nodup {fs : List (String × JValue)} (h : jvalid (.obj fs) = true) :
    (fs.map Prod.fst).Nodup := by
  rw [jvalid, Bool.and_eq_true] at h
  exact of_decide_eq_true h.1

theorem jvalid_obj_mem {fs : List (String × JValue)} {kv : String × JValue}
    (h : jvalid (.obj fs) = true) (hkv : kv ∈ fs) : jvalid kv.2 = true := by
  rw [jvalid, Bool.and_eq_true] at h
  exact jvalidFields_mem h.2 hkv

theorem pyEq_null_null : pyEq .null .null = true := by rw [pyEq]

theorem pyEq_str_str (s t : String) : pyEq (.str s) (.str t) = (s == t) := by rw [pyEq]

theorem pyEq_arr_arr (xs ys : List JValue) : pyEq (.arr xs) (.arr ys) = pyEqList xs ys := by
  rw [pyEq]

theorem pyEq_obj_obj (fs gs : List (String × JValue)) :
    pyEq (.obj fs) (.obj gs) = ((fs.length == gs.length) && pyEqFields fs gs) := by
  rw [pyEq]

theorem pyEq_num_num (x y : Int) : pyEq (.num x) (.num y) = (x == y) := by
  rw [pyEq] <;> simp [asInt]

theorem pyEq_num_bool (x : Int) (b : Bool) :
    pyEq (.num x) (.bool b) = (x == if b then 1 else 0) := by
  rw [pyEq] <;> simp [asInt]

theorem pyEq_bool_num (b : Bool) (y : Int) :
    pyEq (.bool b) (.num y) = ((if b then (1 : Int) else 0) == y) := by
  rw [pyEq] <;> simp [asInt]

theorem pyEq_bool_bool (a b : Bool) :
    pyEq (.bool a) (.bool b) = ((if a then (1 : Int) else 0) == if b then 1 else 0) := by
  rw [pyEq] <;> simp [asInt]

theorem pyLookupEq_lookup (k : String) (v : JValue) (gs : List (String × JValue)) :
    pyLookupEq k v gs = (match List.lookup k gs with
      | some w => pyEq v w
      | none => false) := by
  induction gs with
  | nil => rw [pyLookupEq]; rfl
  | cons p ps ih =>
    match p with
    | (k', w) =>
      rw [pyLookupEq, List.lookup]
      by_cases hk : k = k'
      · subst hk
        simp
      · simp only [beq_eq_false_iff_ne.mpr hk, Bool.false_eq_true, if_false]
        exact ih

theorem pyEqFields_forall (fs gs : List (String × JValue)) :
    pyEqFields fs gs = true ↔ ∀ kv ∈ fs, pyLookupEq kv.1 kv.2 gs = true := by
  induction fs with
  | nil => simp [pyEqFields]
  | cons p ps ih =>
    match p with
    | (k, v) =>
      rw [pyEqFields, Bool.and_eq_true, ih]
      constructor
      · rintro ⟨h1, h2⟩ kv hkv
        rcases List.mem_cons.mp hkv with rfl | hkv'
        · exact h1
        · exact h2 kv hkv'
      · intro h
        exact ⟨h (k, v) (List.mem_cons_self _ _), fun kv hkv => h kv (List.mem_cons_of_mem _ hkv)⟩

theorem lookup_eq_some_of_mem_nodup {l : List (String × JValue)} {k : String} {v : JValue}
    (hnd : (l.map Prod.fst).Nodup) (hm : (k, v) ∈ l) : List.lookup k l = some v := by
  induction l with
  | nil => cases hm
  | cons p ps ih =>
    match p with
    | (k', w) =>
      rw [List.map_cons, List.nodup_cons] at hnd
      rcases List.mem_cons.mp hm with he | hm'
      · rw [List.lookup]
        cases he
        simp
      · rw [List.lookup]
        have hne : k ≠ k' := by
          intro he
          subst he
          exact hnd.1 (List.mem_map.mpr ⟨(k, v), hm', rfl⟩)
        simp only [beq_eq_false_iff_ne.mpr hne]
        exact ih hnd.2 hm'

theorem mem_of_lookup_eq_some {l : List (String × JValue)} {k : String} {w : JValue}
    (h : List.lookup k l = some w) : (k, w) ∈ l := by
  induction l with
  | nil => cases h
  | cons p ps ih =>
    match p with
    | (k', v) =>
      rw [List.lookup] at h
      by_cases hk : k = k'
      · subst hk
        simp only [beq_self_eq_true] at h
        cases h
        exact List.mem_cons_self _ _
      · simp only [beq_eq_false_iff_ne.mpr hk] at h
        exact List.mem_cons_of_mem _ (ih h)

theorem keys_mem_of_lookup {l : List (String × JValue)} {k : String} {w : JValue}
    (h : List.lookup k l = some w) : k ∈ l.map Prod.fst :=
  List.mem_map.mpr ⟨(k, w), mem_of_lookup_eq_some h, rfl⟩

theorem pyEqList_nil_nil : pyEqList [] [] = true := by rw [pyEqList]

theorem pyEqList_nil_cons (y : JValue) (ys : List JValue) : pyEqList [] (y :: ys) = false := by
  rw [pyEqList] <;> simp

theorem pyEqList_cons_nil (x : JValue) (xs : List JValue) : pyEqList (x :: xs) [] = false := by
  rw [pyEqList] <;> simp

theorem pyEqList_cons_cons (x y : JValue) (xs ys : List JValue) :
    pyEqList (x :: xs) (y :: ys) = (pyEq x y && pyEqList xs ys) := by
  rw [pyEqList]

theorem pyEqList_symm_of (xs ys : List JValue)
    (hsym : ∀ x ∈ xs, ∀ y ∈ ys, pyEq x y = pyEq y x) :
    pyEqList xs ys = pyEqList ys xs := by
  induction xs generalizing ys with
  | nil =>
    cases ys with
    | nil => rfl
    | cons y ys' => rw [pyEqList_nil_cons, pyEqList_cons_nil]
  | cons x xs' ih =>
    cases ys with
    | nil => rw [pyEqList_nil_cons, pyEqList_cons_nil]
    | cons y ys' =>
      rw [pyEqList_cons_cons, pyEqList_cons_cons,
        hsym x (List.mem_cons_self _ _) y (List.mem_cons_self _ _),
        ih ys' (fun a ha b hb =>
          hsym a (List.mem_cons_of_mem _ ha) b (List.mem_cons_of_mem _ hb))]

theorem pyEqFields_oneway (fs gs : List (String × JValue))
    (hnf : (fs.map Prod.fst).Nodup) (hng : (gs.map Prod.fst).Nodup)
    (hlen : fs.length = gs.length)
    (hsym : ∀ kv ∈ fs, ∀ kw ∈ gs, pyEq kv.2 kw.2 = pyEq kw.2 kv.2)
    (h : pyEqFields fs gs = true) : pyEqFields gs fs = true := by
  rw [pyEqFields_forall] at h ⊢
  have hsub : ∀ k ∈ fs.map Prod.fst, k ∈ gs.map Prod.fst := by
    intro k hk
    obtain ⟨⟨k0, v⟩, hmem, he⟩ := List.mem_map.mp hk
    cases he
    have hlk := h _ hmem
    rw [pyLookupEq_lookup] at hlk
    cases hl : List.lookup k0 gs with
    | none => rw [hl] at hlk; simp at hlk
    | some w => exact keys_mem_of_lookup hl
  have hkeyset : ∀ k ∈ gs.map Prod.fst, k ∈ fs.map Prod.fst := by
    intro k hk
    have hcard : (fs.map Prod.fst).toFinset = (gs.map Prod.fst).toFinset := by
      apply Finset.eq_of_subset_of_card_le
      · intro x hx
        rw [List.mem_toFinset] at hx ⊢
        exact hsub x hx
      · rw [List.toFinset_card_of_nodup hng, List.toFinset_card_of_nodup hnf]
        simp [hlen]
    rw [← List.mem_toFinset, ← hcard, List.mem_toFinset] at hk
    exact hk
  intro kw hkw
  obtain ⟨k', w'⟩ := kw
  have hkmem : k' ∈ fs.map Prod.fst := hkeyset k' (List.mem_map.mpr ⟨(k', w'), hkw, rfl⟩)
  obtain ⟨⟨k'', v'⟩, hm', he⟩ := List.mem_map.mp hkmem
  cases he
  have hlk : List.lookup k'' gs = some w' := lookup_eq_some_of_mem_nodup hng hkw
  have hlf : List.lookup k'' fs = some v' := lookup_eq_some_of_mem_nodup hnf hm'
  have h1 : pyEq v' w' = true := by
    have h0 := h _ hm'
    rw [pyLookupEq_lookup, hlk] at h0
    exact h0
  have h2 : pyEq w' v' = true := by
    have hs := hsym (k'', v') hm' (k'', w') hkw
    rw [← hs]
    exact h1
  show pyLookupEq k'' w' fs = true
  rw [pyLookupEq_lookup, hlf]
  exact h2

theorem pyEq_symm_aux : ∀ (n : Nat) (a b : JValue), sizeOf a + sizeOf b ≤ n →
    jvalid a = true → jvalid b = true → pyEq a b = pyEq b a := by
  intro n
  induction n using Nat.strong_induction_on with
  | _ n ih =>
    intro a b hn ha hb
    cases a with
    | null =>
      cases b with
      | null => rfl
      | bool c => rw [pyEq, pyEq] <;> simp [asInt]
      | num y => rw [pyEq, pyEq] <;> simp [asInt]
      | str t => rw [pyEq, pyEq] <;> simp [asInt]
      | arr ys => rw [pyEq, pyEq] <;> simp [asInt]
      | obj gs => rw [pyEq, pyEq] <;> simp [asInt]
    | bool c =>
      cases b with
      | null => rw [pyEq, pyEq] <;> simp [asInt]
      | bool d =>
        rw [pyEq_bool_bool, pyEq_bool_bool]
        apply bool_eq_of_iff
        simp only [beq_iff_eq]
        exact eq_comm
      | num y =>
        rw [pyEq_bool_num, pyEq_num_bool]
        apply bool_eq_of_iff
        simp only [beq_iff_eq]
        exact eq_comm
      | str t => rw [pyEq, pyEq] <;> simp [asInt]
      | arr ys => rw [pyEq, pyEq] <;> simp [asInt]
      | obj gs => rw [pyEq, pyEq] <;> simp [asInt]
    | num x =>
      cases b with
      | null => rw [pyEq, pyEq] <;> simp [asInt]
      | bool d =>
        rw [pyEq_num_bool, pyEq_bool_num]
        apply bool_eq_of_iff
        simp only [beq_iff_eq]
        exact eq_comm
      | num y =>
        rw [pyEq_num_num, pyEq_num_num]
        apply bool_eq_of_iff
        simp only [beq_iff_eq]
        exact eq_comm
      | str t => rw [pyEq, pyEq] <;> simp [asInt]
      | arr ys => rw [pyEq, pyEq] <;> simp [asInt]
      | obj gs => rw [pyEq, pyEq] <;> simp [asInt]
    | str s =>
      cases b with
      | null => rw [pyEq, pyEq] <;> simp [asInt]
      | bool d => rw [pyEq, pyEq] <;> simp [asInt]
      | num y => rw [pyEq, pyEq] <;> simp [asInt]
      | str t =>
        rw [pyEq_str_str, pyEq_str_str]
        apply bool_eq_of_iff
        simp only [beq_iff_eq]
        exact eq_comm
      | arr ys => rw [pyEq, pyEq] <;> simp [asInt]
      | obj gs => rw [pyEq, pyEq] <;> simp [asInt]
    | arr xs =>
      cases b with
      | null => rw [pyEq, pyEq] <;> simp [asInt]
      | bool d => rw [pyEq, pyEq] <;> simp [asInt]
      | num y => rw [pyEq, pyEq] <;> simp [asInt]
      | str t => rw [pyEq, pyEq] <;> simp [asInt]
      | arr ys =>
        rw [pyEq_arr_arr, pyEq_arr_arr]
        apply pyEqList_symm_of
        intro x hx y hy
        have hx1 := List.sizeOf_lt_of_mem hx
        have hy1 := List.sizeOf_lt_of_mem hy
        exact ih (sizeOf x + sizeOf y)
          (by simp only [JValue.arr.sizeOf_spec] at hn; omega) x y le_rfl
          (jvalid_arr_mem ha hx) (jvalid_arr_mem hb hy)
      | obj gs => rw [pyEq, pyEq] <;> simp [asInt]
    | obj fs =>
      cases b with
      | null => rw [pyEq, pyEq] <;> simp [asInt]
      | bool d => rw [pyEq, pyEq] <;> simp [asInt]
      | num y => rw [pyEq, pyEq] <;> simp [asInt]
      | str t => rw [pyEq, pyEq] <;> simp [asInt]
      | arr ys => rw [pyEq, pyEq] <;> simp [asInt]
      | obj gs =>
        rw [pyEq_obj_obj, pyEq_obj_obj]
        have hsym : ∀ kv ∈ fs, ∀ kw ∈ gs, pyEq kv.2 kw.2 = pyEq kw.2 kv.2 := by
          intro kv hkv kw hkw
          have h1 := List.sizeOf_lt_of_mem hkv
          have h2 := List.sizeOf_lt_of_mem hkw
          obtain ⟨k1, v1⟩ := kv
          obtain ⟨k2, v2⟩ := kw
          refine ih (sizeOf v1 + sizeOf v2) ?_ v1 v2 le_rfl
            (jvalid_obj_mem ha hkv) (jvalid_obj_mem hb hkw)
          simp only [JValue.obj.sizeOf_spec] at hn
          simp only [Prod.mk.sizeOf_spec] at h1 h2
          omega
        apply bool_eq_of_iff
        simp only [Bool.and_eq_true, beq_iff_eq]
        constructor
        · rintro ⟨hl, hf⟩
          exact ⟨hl.symm, pyEqFields_oneway fs gs (jvalid_obj_nodup ha)
            (jvalid_obj_nodup hb) hl hsym hf⟩
        · rintro ⟨hl, hf⟩
          exact ⟨hl.symm, pyEqFields_oneway gs fs (jvalid_obj_nodup hb)
            (jvalid_obj_nodup ha) hl
            (fun kw hkw kv hkv => (hsym kv hkv kw hkw).symm) hf⟩

theorem pyEq_symm (a b : JValue) (ha : jvalid a = true) (hb : jvalid b = true) :
    pyEq a b = pyEq b a :=
  pyEq_symm_aux (sizeOf a + sizeOf b) a b le_rfl ha hb

theorem pyEqList_trans_of (xs ys zs : List JValue)
    (htr : ∀ x ∈ xs, ∀ y ∈ ys, ∀ z ∈ zs,
      pyEq x y = true → pyEq y z = true → pyEq x z = true)
    (h1 : pyEqList xs ys = true) (h2 : pyEqList ys zs = true) : pyEqList xs zs = true := by
  induction xs generalizing ys zs with
  | nil =>
    cases ys with
    | nil =>
      cases zs with
      | nil => exact pyEqList_nil_nil
      | cons z zs' => rw [pyEqList_nil_cons] at h2; cases h2
    | cons y ys' => rw [pyEqList_nil_cons] at h1; cases h1
  | cons x xs' ih =>
    cases ys with
    | nil => rw [pyEqList_cons_nil] at h1; cases h1
    | cons y ys' =>
      cases zs with
      | nil => rw [pyEqList_cons_nil] at h2; cases h2
      | cons z zs' =>
        rw [pyEqList_cons_cons, Bool.and_eq_true] at h1 h2 ⊢
        refine ⟨htr x (List.mem_cons_self _ _) y (List.mem_cons_self _ _)
          z (List.mem_cons_self _ _) h1.1 h2.1, ?_⟩
        exact ih ys' zs'
          (fun a ha b hb c hc => htr a (List.mem_cons_of_mem _ ha)
            b (List.mem_cons_of_mem _ hb) c (List.mem_cons_of_mem _ hc))
          h1.2 h2.2

theorem pyEqFields_trans_of (fs gs hs : List (String × JValue))
    (htr : ∀ kv ∈ fs, ∀ kw ∈ gs, ∀ ku ∈ hs,
      pyEq kv.2 kw.2 = true → pyEq kw.2 ku.2 = true → pyEq kv.2 ku.2 = true)
    (h1 : pyEqFields fs gs = true) (h2 : pyEqFields gs hs = true) :
    pyEqFields fs hs = true := by
  rw [pyEqFields_forall] at h1 h2 ⊢
  intro kv hkv
  obtain ⟨k, v⟩ := kv
  have hv := h1 _ hkv
  rw [pyLookupEq_lookup] at hv
  cases hlk : List.lookup k gs with
  | none => rw [hlk] at hv; simp at hv
  | some w =>
    have hvw : pyEq v w = true := by rw [hlk] at hv; exact hv
    have hmw : (k, w) ∈ gs := mem_of_lookup_eq_some hlk
    have hw := h2 _ hmw
    rw [pyLookupEq_lookup] at hw
    cases hlu : List.lookup k hs with
    | none => rw [hlu] at hw; simp at hw
    | some u =>
      have hwu : pyEq w u = true := by rw [hlu] at hw; exact hw
      show pyLookupEq k v hs = true
      rw [pyLookupEq_lookup, hlu]
      exact htr (k, v) hkv (k, w) hmw (k, u) (mem_of_lookup_eq_some hlu) hvw hwu

theorem pyEq_trans_aux : ∀ (n : Nat) (a b c : JValue),
    sizeOf a + sizeOf b + sizeOf c ≤ n →
    jvalid a = true → jvalid b = true → jvalid c = true →
    pyEq a b = true → pyEq b c = true → pyEq a c = true := by
  intro n
  induction n using Nat.strong_induction_on with
  | _ n ih =>
    intro a b c hn ha hb hc h1 h2
    cases b with
    | null =>
      cases a with
      | null =>
        cases c with
        | null => exact pyEq_null_null
        | bool d => exact absurd h2 (by rw [pyEq] <;> simp [asInt])
        | num y => exact absurd h2 (by rw [pyEq] <;> simp [asInt])
        | str t => exact absurd h2 (by rw [pyEq] <;> simp [asInt])
        | arr ys => exact absurd h2 (by rw [pyEq] <;> simp [asInt])
        | obj gs => exact absurd h2 (by rw [pyEq] <;> simp [asInt])
      | bool d => exact absurd h1 (by rw [pyEq] <;> simp [asInt])
      | num x => exact absurd h1 (by rw [pyEq] <;> simp [asInt])
      | str s => exact absurd h1 (by rw [pyEq] <;> simp [asInt])
      | arr xs => exact absurd h1 (by rw [pyEq] <;> simp [asInt])
      | obj fs => exact absurd h1 (by rw [pyEq] <;> simp [asInt])
    | str t =>
      cases a with
      | str s =>
        cases c with
        | str u =>
          rw [pyEq_str_str, beq_iff_eq] at h1 h2
          rw [pyEq_str_str, beq_iff_eq]
          exact h1.trans h2
        | null => exact absurd h2 (by rw [pyEq] <;> simp [asInt])
        | bool d => exact absurd h2 (by rw [pyEq] <;> simp [asInt])
        | num y => exact absurd h2 (by rw [pyEq] <;> simp [asInt])
        | arr ys => exact absurd h2 (by rw [pyEq] <;> simp [asInt])
        | obj gs => exact absurd h2 (by rw [pyEq] <;> simp [asInt])
      | null => exact absurd h1 (by rw [pyEq] <;> simp [asInt])
      | bool d => exact absurd h1 (by rw [pyEq] <;> simp [asInt])
      | num x => exact absurd h1 (by rw [pyEq] <;> simp [asInt])
      | arr xs => exact absurd h1 (by rw [pyEq] <;> simp [asInt])
      | obj fs => exact absurd h1 (by rw [pyEq] <;> simp [asInt])
    | bool d =>
      have hbnum : asInt (.bool d) = some (if d then 1 else 0) := rfl
      cases a with
      | bool e =>
        cases c with
        | bool f =>
          rw [pyEq_bool_bool, beq_iff_eq] at h1 h2 ⊢
          omega
        | num z =>
          rw [pyEq_bool_bool, beq_iff_eq] at h1
          rw [pyEq_bool_num, beq_iff_eq] at h2 ⊢
          omega
        | null => exact absurd h2 (by rw [pyEq] <;> simp [asInt])
        | str u => exact absurd h2 (by rw [pyEq] <;> simp [asInt])
        | arr ys => exact absurd h2 (by rw [pyEq] <;> simp [asInt])
        | obj gs => exact absurd h2 (by rw [pyEq] <;> simp [asInt])
      | num x =>
        cases c with
        | bool f =>
          rw [pyEq_num_bool, beq_iff_eq] at h1 ⊢
          rw [pyEq_bool_bool, beq_iff_eq] at h2
          omega
        | num z =>
          rw [pyEq_num_bool, beq_iff_eq] at h1
          rw [pyEq_bool_num, beq_iff_eq] at h2
          rw [pyEq_num_num, beq_iff_eq]
          omega
        | null => exact absurd h2 (by rw [pyEq] <;> simp [asInt])
        | str u => exact absurd h2 (by rw [pyEq] <;> simp [asInt])
        | arr ys => exact absurd h2 (by rw [pyEq] <;> simp [asInt])
        | obj gs => exact absurd h2 (by rw [pyEq] <;> simp [asInt])
      | null => exact absurd h1 (by rw [pyEq] <;> simp [asInt])
      | str s => exact absurd h1 (by rw [pyEq] <;> simp [asInt])
      | arr xs => exact absurd h1 (by rw [pyEq] <;> simp [asInt])
      | obj fs => exact absurd h1 (by rw [pyEq] <;> simp [asInt])
    | num y =>
      cases a with
      | bool e =>
        cases c with
        | bool f =>
          rw [pyEq_bool_num, beq_iff_eq] at h1
          rw [pyEq_num_bool, beq_iff_eq] at h2
          rw [pyEq_bool_bool, beq_iff_eq]
          omega
        | num z =>
          rw [pyEq_bool_num, beq_iff_eq] at h1
          rw [pyEq_num_num, beq_iff_eq] at h2
          rw [pyEq_bool_num, beq_iff_eq]
          omega
        | null => exact absurd h2 (by rw [pyEq] <;> simp [asInt])
        | str u => exact absurd h2 (by rw [pyEq] <;> simp [asInt])
        | arr ys => exact absurd h2 (by rw [pyEq] <;> simp [asInt])
        | obj gs => exact absurd h2 (by rw [pyEq] <;> simp [asInt])
      | num x =>
        cases c with
        | bool f =>
          rw [pyEq_num_num, beq_iff_eq] at h1
          rw [pyEq_num_bool, beq_iff_eq] at h2 ⊢
          omega
        | num z =>
          rw [pyEq_num_num, beq_iff_eq] at h1 h2 ⊢
          omega
        | null => exact absurd h2 (by rw [pyEq] <;> simp [asInt])
        | str u => exact absurd h2 (by rw [pyEq] <;> simp [asInt])
        | arr ys => exact absurd h2 (by rw [pyEq] <;> simp [asInt])
        | obj gs => exact absurd h2 (by rw [pyEq] <;> simp [asInt])
      | null => exact absurd h1 (by rw [pyEq] <;> simp [asInt])
      | str s => exact absurd h1 (by rw [pyEq] <;> simp [asInt])
      | arr xs => exact absurd h1 (by rw [pyEq] <;> simp [asInt])
      | obj fs => exact absurd h1 (by rw [pyEq] <;> simp [asInt])
    | arr ys =>
      cases a with
      | arr xs =>
        cases c with
        | arr zs =>
          rw [pyEq_arr_arr] at h1 h2 ⊢
          refine pyEqList_trans_of xs ys zs ?_ h1 h2
          intro x hx y hy z hz hxy hyz
          have s1 := List.sizeOf_lt_of_mem hx
          have s2 := List.sizeOf_lt_of_mem hy
          have s3 := List.sizeOf_lt_of_mem hz
          refine ih (sizeOf x + sizeOf y + sizeOf z) ?_ x y z le_rfl
            (jvalid_arr_mem ha hx) (jvalid_arr_mem hb hy) (jvalid_arr_mem hc hz) hxy hyz
          simp only [JValue.arr.sizeOf_spec] at hn
          omega
        | null => exact absurd h2 (by rw [pyEq] <;> simp [asInt])
        | bool f => exact absurd h2 (by rw [pyEq] <;> simp [asInt])
        | num z => exact absurd h2 (by rw [pyEq] <;> simp [asInt])
        | str u => exact absurd h2 (by rw [pyEq] <;> simp [asInt])
        | obj gs => exact absurd h2 (by rw [pyEq] <;> simp [asInt])
      | null => exact absurd h1 (by rw [pyEq] <;> simp [asInt])
      | bool e => exact absurd h1 (by rw [pyEq] <;> simp [asInt])
      | num x => exact absurd h1 (by rw [pyEq] <;> simp [asInt])
      | str s => exact absurd h1 (by rw [pyEq] <;> simp [asInt])
      | obj fs => exact absurd h1 (by rw [pyEq] <;> simp [asInt])
    | obj gs =>
      cases a with
      | obj fs =>
        cases c with
        | obj hs =>
          rw [pyEq_obj_obj, Bool.and_eq_true, beq_iff_eq] at h1 h2 ⊢
          refine ⟨h1.1.trans h2.1, ?_⟩
          refine pyEqFields_trans_of fs gs hs ?_ h1.2 h2.2
          intro kv hkv kw hkw ku hku hvw hwu
          have s1 := List.sizeOf_lt_of_mem hkv
          have s2 := List.sizeOf_lt_of_mem hkw
          have s3 := List.sizeOf_lt_of_mem hku
          obtain ⟨k1, v1⟩ := kv
          obtain ⟨k2, v2⟩ := kw
          obtain ⟨k3, v3⟩ := ku
          refine ih (sizeOf v1 + sizeOf v2 + sizeOf v3) ?_ v1 v2 v3 le_rfl
            (jvalid_obj_mem ha hkv) (jvalid_obj_mem hb hkw) (jvalid_obj_mem hc hku) hvw hwu
          simp only [JValue.obj.sizeOf_spec] at hn
          simp only [Prod.mk.sizeOf_spec] at s1 s2 s3
          omega
        | null => exact absurd h2 (by rw [pyEq] <;> simp [asInt])
        | bool f => exact absurd h2 (by rw [pyEq] <;> simp [asInt])
        | num z => exact absurd h2 (by rw [pyEq] <;> simp [asInt])
        | str u => exact absurd h2 (by rw [pyEq] <;> simp [asInt])
        | arr zs => exact absurd h2 (by rw [pyEq] <;> simp [asInt])
      | null => exact absurd h1 (by rw [pyEq] <;> simp [asInt])
      | bool e => exact absurd h1 (by rw [pyEq] <;> simp [asInt])
      | num x => exact absurd h1 (by rw [pyEq] <;> simp [asInt])
      | str s => exact absurd h1 (by rw [pyEq] <;> simp [asInt])
      | arr xs => exact absurd h1 (by rw [pyEq] <;> simp [asInt])

theorem pyEq_trans (a b c : JValue) (ha : jvalid a = true) (hb : jvalid b = true)
    (hc : jvalid c = true) (h1 : pyEq a b = true) (h2 : pyEq b c = true) :
    pyEq a c = true :=
  pyEq_trans_aux (sizeOf a + sizeOf b + sizeOf c) a b c le_rfl ha hb hc h1 h2

theorem pyEq_congr_left (a b c : JValue) (ha : jvalid a = true) (hb : jvalid b = true)
    (hc : jvalid c = true) (h : pyEq a b = true) : pyEq a c = pyEq b c := by
  apply bool_eq_of_iff
  constructor
  · intro hac
    have hba : pyEq b a = true := by rw [pyEq_symm b a hb ha]; exact h
    exact pyEq_trans b a c hb ha hc hba hac
  · intro hbc
    exact pyEq_trans a b c ha hb hc h hbc

theorem pyCmp_str_str (s t : String) :
    pyCmp (.str s) (.str t) = some (charListCmp s.data t.data) := by
  rw [pyCmp]

theorem pyCmp_arr_arr (xs ys : List JValue) : pyCmp (.arr xs) (.arr ys) = pyCmpList xs ys := by
  rw [pyCmp]

theorem pyCmp_bool_bool (a b : Bool) :
    pyCmp (.bool a) (.bool b) =
      some (intCmp (if a then 1 else 0) (if b then 1 else 0)) := by
  rw [pyCmp] <;> simp [asInt]

theorem pyCmp_num_bool (x : Int) (b : Bool) :
    pyCmp (.num x) (.bool b) = some (intCmp x (if b then 1 else 0)) := by
  rw [pyCmp] <;> simp [asInt]

theorem pyCmp_bool_num (b : Bool) (y : Int) :
    pyCmp (.bool b) (.num y) = some (intCmp (if b then 1 else 0) y) := by
  rw [pyCmp] <;> simp [asInt]

theorem pyCmpList_nil_nil : pyCmpList [] [] = some .eq := by rw [pyCmpList]

theorem pyCmpList_nil_cons (y : JValue) (ys : List JValue) :
    pyCmpList [] (y :: ys) = some .lt := by
  rw [pyCmpList]

theorem pyCmpList_cons_nil (x : JValue) (xs : List JValue) :
    pyCmpList (x :: xs) [] = some .gt := by
  rw [pyCmpList]

theorem pyCmpList_cons_cons (x y : JValue) (xs ys : List JValue) :
    pyCmpList (x :: xs) (y :: ys) =
      (if pyEq x y then pyCmpList xs ys else pyCmp x y) := by
  rw [pyCmpList]

theorem intCmp_swap (x y : Int) : intCmp y x = (intCmp x y).swap := by
  unfold intCmp
  split_ifs <;> first | rfl | omega

theorem intCmp_eq_iff (x y : Int) : intCmp x y = .eq ↔ x = y := by
  unfold intCmp
  split_ifs <;> constructor <;> intro h <;> first | rfl | omega | cases h

theorem intCmp_lt_iff (x y : Int) : intCmp x y = .lt ↔ x < y := by
  unfold intCmp
  split_ifs <;> constructor <;> intro h <;> first | assumption | rfl | omega | cases h

theorem natCmp_swap (x y : Nat) : natCmp y x = (natCmp x y).swap := by
  unfold natCmp
  split_ifs <;> first | rfl | omega

theorem natCmp_eq_iff (x y : Nat) : natCmp x y = .eq ↔ x = y := by
  unfold natCmp
  split_ifs <;> constructor <;> intro h <;> first | rfl | omega | cases h

theorem natCmp_lt_iff (x y : Nat) : natCmp x y = .lt ↔ x < y := by
  unfold natCmp
  split_ifs <;> constructor <;> intro h <;> first | assumption | rfl | omega | cases h

theorem charListCmp_nil_cons (d : Char) (ds : List Char) :
    charListCmp [] (d :: ds) = .lt := by
  rw [charListCmp]

theorem charListCmp_cons_nil (c : Char) (cs : List Char) :
    charListCmp (c :: cs) [] = .gt := by
  rw [charListCmp]

theorem charListCmp_cons_cons (c d : Char) (cs ds : List Char) :
    charListCmp (c :: cs) (d :: ds) =
      (match natCmp c.toNat d.toNat with
        | .eq => charListCmp cs ds
        | o => o) := by
  rw [charListCmp]

theorem charListCmp_swap : ∀ (s t : List Char), charListCmp t s = (charListCmp s t).swap
  | [], [] => rfl
  | [], d :: ds => rfl
  | c :: cs, [] => rfl
  | c :: cs, d :: ds => by
    rw [charListCmp_cons_cons, charListCmp_cons_cons, natCmp_swap c.toNat d.toNat]
    cases h : natCmp c.toNat d.toNat with
    | eq => exact charListCmp_swap cs ds
    | lt => rfl
    | gt => rfl

theorem charListCmp_eq_iff : ∀ (s t : List Char), charListCmp s t = .eq ↔ s = t
  | [], [] => by simp [charListCmp]
  | [], d :: ds => by rw [charListCmp_nil_cons]; simp
  | c :: cs, [] => by rw [charListCmp_cons_nil]; simp
  | c :: cs, d :: ds => by
    rw [charListCmp_cons_cons]
    cases h : natCmp c.toNat d.toNat with
    | eq =>
      have hc : c = d := by
        have hnat := (natCmp_eq_iff c.toNat d.toNat).mp h
        exact Char.ofNat_toNat c ▸ Char.ofNat_toNat d ▸ congrArg Char.ofNat hnat
      subst hc
      simp only [charListCmp_eq_iff cs ds]
      constructor
      · intro h'
        rw [h']
      · intro h'
        cases h'
        rfl
    | lt =>
      have hne : c ≠ d := by
        intro he
        subst he
        rw [(natCmp_eq_iff c.toNat c.toNat).mpr rfl] at h
        cases h
      simp only []
      constructor
      · intro h'
        cases h'
      · intro h'
        exact absurd (by injection h' : c = d) hne
    | gt =>
      have hne : c ≠ d := by
        intro he
        subst he
        rw [(natCmp_eq_iff c.toNat c.toNat).mpr rfl] at h
        cases h
      constructor
      · intro h'
        cases h'
      · intro h'
        exact absurd (by injection h' : c = d) hne

theorem charListCmp_lt_trans : ∀ (s t u : List Char),
    charListCmp s t = .lt → charListCmp t u = .lt → charListCmp s u = .lt
  | s, [], u, h1, _ => by
    cases s with
    | nil => rw [show charListCmp [] [] = .eq from rfl] at h1; cases h1
    | cons c cs => rw [charListCmp_cons_nil] at h1; cases h1
  | s, t :: ts, [], _, h2 => by rw [charListCmp_cons_nil] at h2; cases h2
  | [], t :: ts, u :: us, _, _ => charListCmp_nil_cons u us
  | s :: ss, t :: ts, u :: us, h1, h2 => by
    rw [charListCmp_cons_cons] at h1 h2 ⊢
    cases hst : natCmp s.toNat t.toNat with
    | gt => rw [hst] at h1; cases h1
    | eq =>
      have hst' : s.toNat = t.toNat := (natCmp_eq_iff _ _).mp hst
      rw [hst] at h1
      cases htu : natCmp t.toNat u.toNat with
      | gt => rw [htu] at h2; cases h2
      | eq =>
        have htu' : t.toNat = u.toNat := (natCmp_eq_iff _ _).mp htu
        rw [htu] at h2
        rw [(natCmp_eq_iff s.toNat u.toNat).mpr (hst'.trans htu')]
        exact charListCmp_lt_trans ss ts us h1 h2
      | lt =>
        have htu' : t.toNat < u.toNat := (natCmp_lt_iff _ _).mp htu
        rw [(natCmp_lt_iff s.toNat u.toNat).mpr (by omega)]
    | lt =>
      have hst' : s.toNat < t.toNat := (natCmp_lt_iff _ _).mp hst
      cases htu : natCmp t.toNat u.toNat with
      | gt => rw [htu] at h2; cases h2
      | eq =>
        have htu' : t.toNat = u.toNat := (natCmp_eq_iff _ _).mp htu
        rw [(natCmp_lt_iff s.toNat u.toNat).mpr (by omega)]
      | lt =>
        have htu' : t.toNat < u.toNat := (natCmp_lt_iff _ _).mp htu
        rw [(natCmp_lt_iff s.toNat u.toNat).mpr (by omega)]

theorem pyCmp_of_asInt_some {a : JValue} {x : Int} (c : JValue) (hax : asInt a = some x) :
    pyCmp a c = (match asInt c with
      | some y => some (intCmp x y)
      | none => none) := by
  cases a with
  | num v =>
    have hx : v = x := by simpa [asInt] using hax
    subst hx
    cases c <;> (rw [pyCmp] <;> simp [asInt])
  | bool b =>
    have hx : (if b then (1 : Int) else 0) = x := by simpa [asInt] using hax
    subst hx
    cases c <;> (rw [pyCmp] <;> simp [asInt])
  | null => simp [asInt] at hax
  | str s => simp [asInt] at hax
  | arr xs => simp [asInt] at hax
  | obj fs => simp [asInt] at hax

theorem pyCmp_null_left (b : JValue) : pyCmp .null b = none := by
  cases b <;> (rw [pyCmp] <;> simp [asInt])

theorem pyCmp_null_right (a : JValue) : pyCmp a .null = none := by
  cases a <;> (rw [pyCmp] <;> simp [asInt])

theorem pyCmp_obj_left (fs : List (String × JValue)) (b : JValue) :
    pyCmp (.obj fs) b = none := by
  cases b <;> (rw [pyCmp] <;> simp [asInt])

theorem pyCmp_obj_right (a : JValue) (gs : List (String × JValue)) :
    pyCmp a (.obj gs) = none := by
  cases a <;> (rw [pyCmp] <;> simp [asInt])

theorem pyCmp_str_left_not (s : String) (c : JValue) (h : ∀ t, c ≠ .str t) :
    pyCmp (.str s) c = none := by
  cases c with
  | str t => exact absurd rfl (h t)
  | null => rw [pyCmp] <;> simp [asInt]
  | bool b => rw [pyCmp] <;> simp [asInt]
  | num y => rw [pyCmp] <;> simp [asInt]
  | arr ys => rw [pyCmp] <;> simp [asInt]
  | obj gs => rw [pyCmp] <;> simp [asInt]

theorem pyCmp_str_right_not (c : JValue) (s : String) (h : ∀ t, c ≠ .str t) :
    pyCmp c (.str s) = none := by
  cases c with
  | str t => exact absurd rfl (h t)
  | null => rw [pyCmp] <;> simp [asInt]
  | bool b => rw [pyCmp] <;> simp [asInt]
  | num y => rw [pyCmp] <;> simp [asInt]
  | arr ys => rw [pyCmp] <;> simp [asInt]
  | obj gs => rw [pyCmp] <;> simp [asInt]

theorem pyCmp_arr_left_not (xs : List JValue) (c : JValue) (h : ∀ zs, c ≠ .arr zs) :
    pyCmp (.arr xs) c = none := by
  cases c with
  | arr zs => exact absurd rfl (h zs)
  | null => rw [pyCmp] <;> simp [asInt]
  | bool b => rw [pyCmp] <;> simp [asInt]
  | num y => rw [pyCmp] <;> simp [asInt]
  | str t => rw [pyCmp] <;> simp [asInt]
  | obj gs => rw [pyCmp] <;> simp [asInt]

theorem pyCmp_arr_right_not (c : JValue) (xs : List JValue) (h : ∀ zs, c ≠ .arr zs) :
    pyCmp c (.arr xs) = none := by
  cases c with
  | arr zs => exact absurd rfl (h zs)
  | null => rw [pyCmp] <;> simp [asInt]
  | bool b => rw [pyCmp] <;> simp [asInt]
  | num y => rw [pyCmp] <;> simp [asInt]
  | str t => rw [pyCmp] <;> simp [asInt]
  | obj gs => rw [pyCmp] <;> simp [asInt]

theorem pyEq_of_asInt_some {a b : JValue} {x y : Int} (hax : asInt a = some x)
    (hbx : asInt b = some y) : pyEq a b = (x == y) := by
  cases a with
  | num v =>
    have hx : v = x := by simpa [asInt] using hax
    subst hx
    cases b with
    | num w =>
      have hy : w = y := by simpa [asInt] using hbx
      subst hy
      exact pyEq_num_num _ _
    | bool c =>
      have hy : (if c then (1 : Int) else 0) = y := by simpa [asInt] using hbx
      subst hy
      exact pyEq_num_bool _ _
    | null => simp [asInt] at hbx
    | str t => simp [asInt] at hbx
    | arr ys => simp [asInt] at hbx
    | obj gs => simp [asInt] at hbx
  | bool c =>
    have hx : (if c then (1 : Int) else 0) = x := by simpa [asInt] using hax
    subst hx
    cases b with
    | num w =>
      have hy : w = y := by simpa [asInt] using hbx
      subst hy
      exact pyEq_bool_num _ _
    | bool d =>
      have hy : (if d then (1 : Int) else 0) = y := by simpa [asInt] using hbx
      subst hy
      exact pyEq_bool_bool _ _
    | null => simp [asInt] at hbx
    | str t => simp [asInt] at hbx
    | arr ys => simp [asInt] at hbx
    | obj gs => simp [asInt] at hbx
  | null => simp [asInt] at hax
  | str s => simp [asInt] at hax
  | arr xs => simp [asInt] at hax
  | obj fs => simp [asInt] at hax

theorem pyEq_true_cases (a b : JValue) (h : pyEq a b = true) :
    (a = .null ∧ b = .null) ∨
    (∃ x y, asInt a = some x ∧ asInt b = some y ∧ x = y) ∨
    (∃ s, a = .str s ∧ b = .str s) ∨
    (∃ xs ys, a = .arr xs ∧ b = .arr ys ∧ pyEqList xs ys = true) ∨
    (∃ fs gs, a = .obj fs ∧ b = .obj gs ∧ fs.length = gs.length ∧
      pyEqFields fs gs = true) := by
  cases a with
  | null =>
    cases b with
    | null => exact Or.inl ⟨rfl, rfl⟩
    | bool d => exact absurd h (by rw [pyEq] <;> simp [asInt])
    | num y => exact absurd h (by rw [pyEq] <;> simp [asInt])
    | str t => exact absurd h (by rw [pyEq] <;> simp [asInt])
    | arr ys => exact absurd h (by rw [pyEq] <;> simp [asInt])
    | obj gs => exact absurd h (by rw [pyEq] <;> simp [asInt])
  | bool c =>
    cases b with
    | null => exact absurd h (by rw [pyEq] <;> simp [asInt])
    | bool d =>
      rw [pyEq_bool_bool, beq_iff_eq] at h
      exact Or.inr (Or.inl ⟨_, _, rfl, rfl, h⟩)
    | num y =>
      rw [pyEq_bool_num, beq_iff_eq] at h
      exact Or.inr (Or.inl ⟨_, _, rfl, rfl, h⟩)
    | str t => exact absurd h (by rw [pyEq] <;> simp [asInt])
    | arr ys => exact absurd h (by rw [pyEq] <;> simp [asInt])
    | obj gs => exact absurd h (by rw [pyEq] <;> simp [asInt])
  | num x =>
    cases b with
    | null => exact absurd h (by rw [pyEq] <;> simp [asInt])
    | bool d =>
      rw [pyEq_num_bool, beq_iff_eq] at h
      exact Or.inr (Or.inl ⟨_, _, rfl, rfl, h⟩)
    | num y =>
      rw [pyEq_num_num, beq_iff_eq] at h
      exact Or.inr (Or.inl ⟨_, _, rfl, rfl, h⟩)
    | str t => exact absurd h (by rw [pyEq] <;> simp [asInt])
    | arr ys => exact absurd h (by rw [pyEq] <;> simp [asInt])
    | obj gs => exact absurd h (by rw [pyEq] <;> simp [asInt])
  | str s =>
    cases b with
    | null => exact absurd h (by rw [pyEq] <;> simp [asInt])
    | bool d => exact absurd h (by rw [pyEq] <;> simp [asInt])
    | num y => exact absurd h (by rw [pyEq] <;> simp [asInt])
    | str t =>
      rw [pyEq_str_str, beq_iff_eq] at h
      subst h
      exact Or.inr (Or.inr (Or.inl ⟨s, rfl, rfl⟩))
    | arr ys => exact absurd h (by rw [pyEq] <;> simp [asInt])
    | obj gs => exact absurd h (by rw [pyEq] <;> simp [asInt])
  | arr xs =>
    cases b with
    | null => exact absurd h (by rw [pyEq] <;> simp [asInt])
    | bool d => exact absurd h (by rw [pyEq] <;> simp [asInt])
    | num y => exact absurd h (by rw [pyEq] <;> simp [asInt])
    | str t => exact absurd h (by rw [pyEq] <;> simp [asInt])
    | arr ys =>
      rw [pyEq_arr_arr] at h
      exact Or.inr (Or.inr (Or.inr (Or.inl ⟨xs, ys, rfl, rfl, h⟩)))
    | obj gs => exact absurd h (by rw [pyEq] <;> simp [asInt])
  | obj fs =>
    cases b with
    | null => exact absurd h (by rw [pyEq] <;> simp [asInt])
    | bool d => exact absurd h (by rw [pyEq] <;> simp [asInt])
    | num y => exact absurd h (by rw [pyEq] <;> simp [asInt])
    | str t => exact absurd h (by rw [pyEq] <;> simp [asInt])
    | arr ys => exact absurd h (by rw [pyEq] <;> simp [asInt])
    | obj gs =>
      rw [pyEq_obj_obj, Bool.and_eq_true, beq_iff_eq] at h
      exact Or.inr (Or.inr (Or.inr (Or.inr ⟨fs, gs, rfl, rfl, h.1, h.2⟩)))

theorem pyCmpList_swap_of (xs ys : List JValue)
    (hsymE : ∀ x ∈ xs, ∀ y ∈ ys, pyEq x y = pyEq y x)
    (hswap : ∀ x ∈ xs, ∀ y ∈ ys, pyCmp y x = (pyCmp x y).map Ordering.swap) :
    pyCmpList ys xs = (pyCmpList xs ys).map Ordering.swap := by
  induction xs generalizing ys with
  | nil =>
    cases ys with
    | nil => rw [pyCmpList_nil_nil]; rfl
    | cons y ys' => rw [pyCmpList_nil_cons, pyCmpList_cons_nil]; rfl
  | cons x xs' ih =>
    cases ys with
    | nil => rw [pyCmpList_nil_cons, pyCmpList_cons_nil]; rfl
    | cons y ys' =>
      rw [pyCmpList_cons_cons, pyCmpList_cons_cons,
        ← hsymE x (List.mem_cons_self _ _) y (List.mem_cons_self _ _)]
      by_cases hxy : pyEq x y = true
      · rw [if_pos hxy, if_pos hxy]
        exact ih ys'
          (fun a ha b hb => hsymE a (List.mem_cons_of_mem _ ha) b (List.mem_cons_of_mem _ hb))
          (fun a ha b hb => hswap a (List.mem_cons_of_mem _ ha) b (List.mem_cons_of_mem _ hb))
      · rw [if_neg hxy, if_neg hxy]
        exact hswap x (List.mem_cons_self _ _) y (List.mem_cons_self _ _)

theorem pyCmp_swap_aux : ∀ (n : Nat) (a b : JValue), sizeOf a + sizeOf b ≤ n →
    jvalid a = true → jvalid b = true →
    pyCmp b a = (pyCmp a b).map Ordering.swap := by
  intro n
  induction n using Nat.strong_induction_on with
  | _ n ih =>
    intro a b hn ha hb
    cases hax : asInt a with
    | some x =>
      rw [pyCmp_of_asInt_some b hax]
      cases hbx : asInt b with
      | some y =>
        rw [pyCmp_of_asInt_some a hbx, hax]
        show some (intCmp y x) = Option.map Ordering.swap (some (intCmp x y))
        rw [intCmp_swap x y]
        rfl
      | none =>
        have hanum : ∀ t, a ≠ JValue.str t := by
          intro t he
          subst he
          simp [asInt] at hax
        have haarr : ∀ zs, a ≠ JValue.arr zs := by
          intro zs he
          subst he
          simp [asInt] at hax
        cases b with
        | null => rw [pyCmp_null_left]; rfl
        | obj gs => rw [pyCmp_obj_left]; rfl
        | str t => rw [pyCmp_str_left_not t a hanum]; rfl
        | arr ys => rw [pyCmp_arr_left_not ys a haarr]; rfl
        | bool d => simp [asInt] at hbx
        | num y => simp [asInt] at hbx
    | none =>
      cases a with
      | null =>
        rw [pyCmp_null_left, pyCmp_null_right]
        rfl
      | obj fs =>
        rw [pyCmp_obj_left, pyCmp_obj_right]
        rfl
      | str s =>
        cases b with
        | str t =>
          rw [pyCmp_str_str, pyCmp_str_str, charListCmp_swap]
          rfl
        | null =>
          rw [pyCmp_null_left, pyCmp_str_left_not s .null (by intro t he; cases he)]
          rfl
        | bool d =>
          rw [pyCmp_str_left_not s (.bool d) (by intro t he; cases he),
            pyCmp_str_right_not (.bool d) s (by intro t he; cases he)]
          rfl
        | num y =>
          rw [pyCmp_str_left_not s (.num y) (by intro t he; cases he),
            pyCmp_str_right_not (.num y) s (by intro t he; cases he)]
          rfl
        | arr ys =>
          rw [pyCmp_str_left_not s (.arr ys) (by intro t he; cases he),
            pyCmp_str_right_not (.arr ys) s (by intro t he; cases he)]
          rfl
        | obj gs =>
          rw [pyCmp_obj_left, pyCmp_str_left_not s (.obj gs) (by intro t he; cases he)]
          rfl
      | arr xs =>
        cases b with
        | arr ys =>
          rw [pyCmp_arr_arr, pyCmp_arr_arr]
          apply pyCmpList_swap_of
          · intro p hp q hq
            exact pyEq_symm p q (jvalid_arr_mem ha hp) (jvalid_arr_mem hb hq)
          · intro p hp q hq
            have s1 := List.sizeOf_lt_of_mem hp
            have s2 := List.sizeOf_lt_of_mem hq
            refine ih (sizeOf p + sizeOf q) ?_ p q le_rfl
              (jvalid_arr_mem ha hp) (jvalid_arr_mem hb hq)
            simp only [JValue.arr.sizeOf_spec] at hn
            omega
        | null =>
          rw [pyCmp_null_left, pyCmp_arr_left_not xs .null (by intro zs he; cases he)]
          rfl
        | bool d =>
          rw [pyCmp_arr_left_not xs (.bool d) (by intro zs he; cases he),
            pyCmp_arr_right_not (.bool d) xs (by intro zs he; cases he)]
          rfl
        | num y =>
          rw [pyCmp_arr_left_not xs (.num y) (by intro zs he; cases he),
            pyCmp_arr_right_not (.num y) xs (by intro zs he; cases he)]
          rfl
        | str t =>
          rw [pyCmp_arr_left_not xs (.str t) (by intro zs he; cases he),
            pyCmp_arr_right_not (.str t) xs (by intro zs he; cases he)]
          rfl
        | obj gs =>
          rw [pyCmp_obj_left, pyCmp_arr_left_not xs (.obj gs) (by intro zs he; cases he)]
          rfl
      | bool d => simp [asInt] at hax
      | num x => simp [asInt] at hax

theorem pyCmp_swap (a b : JValue) (ha : jvalid a = true) (hb : jvalid b = true) :
    pyCmp b a = (pyCmp a b).map Ordering.swap :=
  pyCmp_swap_aux (sizeOf a + sizeOf b) a b le_rfl ha hb

theorem map_swap_inj {o1 o2 : Option Ordering}
    (h : o1.map Ordering.swap = o2.map Ordering.swap) : o1 = o2 := by
  cases o1 with
  | none => cases o2 with
    | none => rfl
    | some v => simp at h
  | some u =>
    cases o2 with
    | none => simp at h
    | some v =>
      simp only [Option.map_some'] at h
      cases u <;> cases v <;> simp_all [Ordering.swap]

theorem pyCmpList_eq_imp_of (xs ys : List JValue)
    (helem : ∀ x ∈ xs, ∀ y ∈ ys, pyCmp x y = some .eq → pyEq x y = true) :
    pyCmpList xs ys = some .eq → pyEqList xs ys = true := by
  induction xs generalizing ys with
  | nil =>
    intro h
    cases ys with
    | nil => exact pyEqList_nil_nil
    | cons y ys' => rw [pyCmpList_nil_cons] at h; cases h
  | cons x xs' ih =>
    intro h
    cases ys with
    | nil => rw [pyCmpList_cons_nil] at h; cases h
    | cons y ys' =>
      rw [pyCmpList_cons_cons] at h
      rw [pyEqList_cons_cons, Bool.and_eq_true]
      by_cases hxy : pyEq x y = true
      · rw [if_pos hxy] at h
        exact ⟨hxy, ih ys'
          (fun a ha b hb => helem a (List.mem_cons_of_mem _ ha) b (List.mem_cons_of_mem _ hb))
          h⟩
      · rw [if_neg hxy] at h
        exact absurd (helem x (List.mem_cons_self _ _) y (List.mem_cons_self _ _) h) hxy

theorem pyCmp_eq_imp_pyEq_aux : ∀ (n : Nat) (a b : JValue), sizeOf a + sizeOf b ≤ n →
    pyCmp a b = some .eq → pyEq a b = true := by
  intro n
  induction n using Nat.strong_induction_on with
  | _ n ih =>
    intro a b hn h
    cases hax : asInt a with
    | some x =>
      rw [pyCmp_of_asInt_some b hax] at h
      cases hbx : asInt b with
      | some y =>
        rw [hbx] at h
        simp only [Option.some.injEq] at h
        rw [pyEq_of_asInt_some hax hbx, beq_iff_eq]
        exact (intCmp_eq_iff x y).mp h
      | none => rw [hbx] at h; cases h
    | none =>
      cases a with
      | null => rw [pyCmp_null_left] at h; cases h
      | obj fs => rw [pyCmp_obj_left] at h; cases h
      | bool d => simp [asInt] at hax
      | num x => simp [asInt] at hax
      | str s =>
        cases b with
        | str t =>
          rw [pyCmp_str_str] at h
          simp only [Option.some.injEq] at h
          have : s.data = t.data := (charListCmp_eq_iff _ _).mp h
          have hst : s = t := by
            cases s
            cases t
            exact congrArg String.mk this
          subst hst
          rw [pyEq_str_str]
          simp
        | null => rw [pyCmp_str_left_not s .null (by intro t he; cases he)] at h; cases h
        | bool d => rw [pyCmp_str_left_not s (.bool d) (by intro t he; cases he)] at h; cases h
        | num y => rw [pyCmp_str_left_not s (.num y) (by intro t he; cases he)] at h; cases h
        | arr ys => rw [pyCmp_str_left_not s (.arr ys) (by intro t he; cases he)] at h; cases h
        | obj gs => rw [pyCmp_obj_right] at h; cases h
      | arr xs =>
        cases b with
        | arr ys =>
          rw [pyCmp_arr_arr] at h
          rw [pyEq_arr_arr]
          refine pyCmpList_eq_imp_of xs ys ?_ h
          intro p hp q hq hpq
          have s1 := List.sizeOf_lt_of_mem hp
          have s2 := List.sizeOf_lt_of_mem hq
          refine ih (sizeOf p + sizeOf q) ?_ p q le_rfl hpq
          simp only [JValue.arr.sizeOf_spec] at hn
          omega
        | null => rw [pyCmp_arr_left_not xs .null (by intro zs he; cases he)] at h; cases h
        | bool d => rw [pyCmp_arr_left_not xs (.bool d) (by intro zs he; cases he)] at h; cases h
        | num y => rw [pyCmp_arr_left_not xs (.num y) (by intro zs he; cases he)] at h; cases h
        | str t => rw [pyCmp_arr_left_not xs (.str t) (by intro zs he; cases he)] at h; cases h
        | obj gs => rw [pyCmp_obj_right] at h; cases h

theorem pyCmp_eq_imp_pyEq (a b : JValue) (h : pyCmp a b = some .eq) : pyEq a b = true :=
  pyCmp_eq_imp_pyEq_aux (sizeOf a + sizeOf b) a b le_rfl h

theorem pyCmpList_congr_of (xs ys zs : List JValue)
    (hstep : ∀ x ∈ xs, ∀ y ∈ ys, pyEq x y = true →
      ∀ z ∈ zs, pyEq x z = pyEq y z ∧ pyCmp x z = pyCmp y z)
    (h : pyEqList xs ys = true) : pyCmpList xs zs = pyCmpList ys zs := by
  induction xs generalizing ys zs with
  | nil =>
    cases ys with
    | nil => rfl
    | cons y ys' => rw [pyEqList_nil_cons] at h; cases h
  | cons x xs' ih =>
    cases ys with
    | nil => rw [pyEqList_cons_nil] at h; cases h
    | cons y ys' =>
      rw [pyEqList_cons_cons, Bool.and_eq_true] at h
      cases zs with
      | nil => rw [pyCmpList_cons_nil, pyCmpList_cons_nil]
      | cons z zs' =>
        rw [pyCmpList_cons_cons, pyCmpList_cons_cons]
        have hs := hstep x (List.mem_cons_self _ _) y (List.mem_cons_self _ _) h.1
          z (List.mem_cons_self _ _)
        rw [hs.1]
        by_cases hyz : pyEq y z = true
        · rw [if_pos hyz, if_pos hyz]
          exact ih ys' zs'
            (fun a ha b hb hab c hc => hstep a (List.mem_cons_of_mem _ ha)
              b (List.mem_cons_of_mem _ hb) hab c (List.mem_cons_of_mem _ hc))
            h.2
        · rw [if_neg hyz, if_neg hyz]
          exact hs.2

theorem pyCmp_congr_left_aux : ∀ (n : Nat) (a b c : JValue),
    sizeOf a + sizeOf b + sizeOf c ≤ n →
    jvalid a = true → jvalid b = true → jvalid c = true →
    pyEq a b = true → pyCmp a c = pyCmp b c := by
  intro n
  induction n using Nat.strong_induction_on with
  | _ n ih =>
    intro a b c hn ha hb hc h
    rcases pyEq_true_cases a b h with ⟨rfl, rfl⟩ | ⟨x, y, hax, hbx, rfl⟩ |
      ⟨s, rfl, rfl⟩ | ⟨xs, ys, rfl, rfl, hl⟩ | ⟨fs, gs, rfl, rfl, _, _⟩
    · rfl
    · rw [pyCmp_of_asInt_some c hax, pyCmp_of_asInt_some c hbx]
    · rfl
    · cases c with
      | arr zs =>
        rw [pyCmp_arr_arr, pyCmp_arr_arr]
        refine pyCmpList_congr_of xs ys zs ?_ hl
        intro x hx y hy hxy z hz
        have s1 := List.sizeOf_lt_of_mem hx
        have s2 := List.sizeOf_lt_of_mem hy
        have s3 := List.sizeOf_lt_of_mem hz
        have hvx := jvalid_arr_mem ha hx
        have hvy := jvalid_arr_mem hb hy
        have hvz := jvalid_arr_mem hc hz
        refine ⟨pyEq_congr_left x y z hvx hvy hvz hxy, ?_⟩
        refine ih (sizeOf x + sizeOf y + sizeOf z) ?_ x y z le_rfl hvx hvy hvz hxy
        simp only [JValue.arr.sizeOf_spec] at hn
        omega
      | null =>
        rw [pyCmp_arr_left_not xs .null (by intro zs he; cases he),
          pyCmp_arr_left_not ys .null (by intro zs he; cases he)]
      | bool d =>
        rw [pyCmp_arr_left_not xs (.bool d) (by intro zs he; cases he),
          pyCmp_arr_left_not ys (.bool d) (by intro zs he; cases he)]
      | num x =>
        rw [pyCmp_arr_left_not xs (.num x) (by intro zs he; cases he),
          pyCmp_arr_left_not ys (.num x) (by intro zs he; cases he)]
      | str t =>
        rw [pyCmp_arr_left_not xs (.str t) (by intro zs he; cases he),
          pyCmp_arr_left_not ys (.str t) (by intro zs he; cases he)]
      | obj gs => rw [pyCmp_obj_right, pyCmp_obj_right]
    · rw [pyCmp_obj_left, pyCmp_obj_left]

theorem pyCmp_congr_left (a b c : JValue) (ha : jvalid a = true) (hb : jvalid b = true)
    (hc : jvalid c = true) (h : pyEq a b = true) : pyCmp a c = pyCmp b c :=
  pyCmp_congr_left_aux (sizeOf a + sizeOf b + sizeOf c) a b c le_rfl ha hb hc h

theorem pyCmp_congr_right (a b c : JValue) (ha : jvalid a = true) (hb : jvalid b = true)
    (hc : jvalid c = true) (h : pyEq a b = true) : pyCmp c a = pyCmp c b := by
  have h1 := pyCmp_swap c a hc ha
  have h2 := pyCmp_swap c b hc hb
  have h3 := pyCmp_congr_left a b c ha hb hc h
  apply map_swap_inj
  rw [← h1, ← h2, h3]

theorem pyEq_congr_right (a b c : JValue) (ha : jvalid a = true) (hb : jvalid b = true)
    (hc : jvalid c = true) (h : pyEq a b = true) : pyEq c a = pyEq c b := by
  rw [pyEq_symm c a hc ha, pyEq_symm c b hc hb]
  exact pyEq_congr_left a b c ha hb hc h

theorem pyCmpList_lt_trans_of (xs ys zs : List JValue)
    (hvx : ∀ x ∈ xs, jvalid x = true) (hvy : ∀ y ∈ ys, jvalid y = true)
    (hvz : ∀ z ∈ zs, jvalid z = true)
    (hrec : ∀ x ∈ xs, ∀ y ∈ ys, ∀ z ∈ zs,
      pyCmp x y = some .lt → pyCmp y z = some .lt → pyCmp x z = some .lt) :
    pyCmpList xs ys = some .lt → pyCmpList ys zs = some .lt →
    pyCmpList xs zs = some .lt := by
  induction xs generalizing ys zs with
  | nil =>
    intro h1 h2
    cases ys with
    | nil => rw [pyCmpList_nil_nil] at h1; cases h1
    | cons y ys' =>
      cases zs with
      | nil => rw [pyCmpList_cons_nil] at h2; cases h2
      | cons z zs' => exact pyCmpList_nil_cons z zs'
  | cons x xs' ih =>
    intro h1 h2
    cases ys with
    | nil => rw [pyCmpList_cons_nil] at h1; cases h1
    | cons y ys' =>
      cases zs with
      | nil => rw [pyCmpList_cons_nil] at h2; cases h2
      | cons z zs' =>
        rw [pyCmpList_cons_cons] at h1 h2 ⊢
        have hvx1 : jvalid x = true := hvx x (List.mem_cons_self _ _)
        have hvy1 := hvy y (List.mem_cons_self _ _)
        have hvz1 := hvz z (List.mem_cons_self _ _)
        have hvx' : ∀ p ∈ xs', jvalid p = true :=
          fun p hp => hvx p (List.mem_cons_of_mem _ hp)
        have hvy' : ∀ p ∈ ys', jvalid p = true :=
          fun p hp => hvy p (List.mem_cons_of_mem _ hp)
        have hvz' : ∀ p ∈ zs', jvalid p = true :=
          fun p hp => hvz p (List.mem_cons_of_mem _ hp)
        have hrec' : ∀ p ∈ xs', ∀ q ∈ ys', ∀ r ∈ zs',
            pyCmp p q = some .lt → pyCmp q r = some .lt → pyCmp p r = some .lt :=
          fun p hp q hq r hr => hrec p (List.mem_cons_of_mem _ hp)
            q (List.mem_cons_of_mem _ hq) r (List.mem_cons_of_mem _ hr)
        by_cases hxy : pyEq x y = true
        · rw [if_pos hxy] at h1
          by_cases hyz : pyEq y z = true
          · rw [if_pos hyz] at h2
            rw [if_pos (pyEq_trans x y z hvx1 hvy1 hvz1 hxy hyz)]
            exact ih ys' zs' hvx' hvy' hvz' hrec' h1 h2
          · rw [if_neg hyz] at h2
            have hxz : pyEq x z = pyEq y z := pyEq_congr_left x y z hvx1 hvy1 hvz1 hxy
            rw [if_neg (by rw [hxz]; exact hyz)]
            rw [pyCmp_congr_left x y z hvx1 hvy1 hvz1 hxy]
            exact h2
        · rw [if_neg hxy] at h1
          by_cases hyz : pyEq y z = true
          · rw [if_pos hyz] at h2
            have hxzf : pyEq x z = false := by
              rw [← pyEq_congr_right y z x hvy1 hvz1 hvx1 hyz]
              cases hpv : pyEq x y with
              | false => rfl
              | true => exact absurd hpv hxy
            rw [if_neg (by simp [hxzf])]
            rw [pyCmp_congr_right y z x hvy1 hvz1 hvx1 hyz] at h1
            exact h1
          · rw [if_neg hyz] at h2
            have hxzf : pyEq x z = false := by
              cases hpv : pyEq x z with
              | false => rfl
              | true =>
                exfalso
                have hcg := pyCmp_congr_left x z y hvx1 hvz1 hvy1 hpv
                have hsw := pyCmp_swap y z hvy1 hvz1
                rw [hcg, hsw, h2] at h1
                simp [Ordering.swap] at h1
            rw [if_neg (by simp [hxzf])]
            exact hrec x (List.mem_cons_self _ _) y (List.mem_cons_self _ _)
              z (List.mem_cons_self _ _) h1 h2

theorem pyCmp_lt_trans_aux : ∀ (n : Nat) (a b c : JValue),
    sizeOf a + sizeOf b + sizeOf c ≤ n →
    jvalid a = true → jvalid b = true → jvalid c = true →
    pyCmp a b = some .lt → pyCmp b c = some .lt → pyCmp a c = some .lt := by
  intro n
  induction n using Nat.strong_induction_on with
  | _ n ih =>
    intro a b c hn ha hb hc h1 h2
    cases hax : asInt a with
    | some x =>
      rw [pyCmp_of_asInt_some b hax] at h1
      cases hbx : asInt b with
      | none => rw [hbx] at h1; cases h1
      | some y =>
        rw [hbx] at h1
        simp only [Option.some.injEq] at h1
        rw [pyCmp_of_asInt_some c hbx] at h2
        cases hcx : asInt c with
        | none => rw [hcx] at h2; cases h2
        | some z =>
          rw [hcx] at h2
          simp only [Option.some.injEq] at h2
          rw [pyCmp_of_asInt_some c hax, hcx]
          have l1 := (intCmp_lt_iff x y).mp h1
          have l2 := (intCmp_lt_iff y z).mp h2
          show some (intCmp x z) = some Ordering.lt
          rw [(intCmp_lt_iff x z).mpr (by omega)]
    | none =>
      cases a with
      | null => rw [pyCmp_null_left] at h1; cases h1
      | obj fs => rw [pyCmp_obj_left] at h1; cases h1
      | bool d => simp [asInt] at hax
      | num x => simp [asInt] at hax
      | str s =>
        cases b with
        | str t =>
          cases c with
          | str u =>
            rw [pyCmp_str_str] at h1 h2 ⊢
            simp only [Option.some.injEq] at h1 h2 ⊢
            exact charListCmp_lt_trans s.data t.data u.data h1 h2
          | null => rw [pyCmp_str_left_not t .null (by intro v he; cases he)] at h2; cases h2
          | bool d =>
            rw [pyCmp_str_left_not t (.bool d) (by intro v he; cases he)] at h2; cases h2
          | num y =>
            rw [pyCmp_str_left_not t (.num y) (by intro v he; cases he)] at h2; cases h2
          | arr zs =>
            rw [pyCmp_str_left_not t (.arr zs) (by intro v he; cases he)] at h2; cases h2
          | obj gs => rw [pyCmp_obj_right] at h2; cases h2
        | null => rw [pyCmp_str_left_not s .null (by intro v he; cases he)] at h1; cases h1
        | bool d =>
          rw [pyCmp_str_left_not s (.bool d) (by intro v he; cases he)] at h1; cases h1
        | num y =>
          rw [pyCmp_str_left_not s (.num y) (by intro v he; cases he)] at h1; cases h1
        | arr ys =>
          rw [pyCmp_str_left_not s (.arr ys) (by intro v he; cases he)] at h1; cases h1
        | obj gs => rw [pyCmp_obj_right] at h1; cases h1
      | arr xs =>
        cases b with
        | arr ys =>
          cases c with
          | arr zs =>
            rw [pyCmp_arr_arr] at h1 h2 ⊢
            refine pyCmpList_lt_trans_of xs ys zs
              (fun p hp => jvalid_arr_mem ha hp)
              (fun p hp => jvalid_arr_mem hb hp)
              (fun p hp => jvalid_arr_mem hc hp) ?_ h1 h2
            intro p hp q hq r hr hpq hqr
            have s1 := List.sizeOf_lt_of_mem hp
            have s2 := List.sizeOf_lt_of_mem hq
            have s3 := List.sizeOf_lt_of_mem hr
            refine ih (sizeOf p + sizeOf q + sizeOf r) ?_ p q r le_rfl
              (jvalid_arr_mem ha hp) (jvalid_arr_mem hb hq) (jvalid_arr_mem hc hr) hpq hqr
            simp only [JValue.arr.sizeOf_spec] at hn
            omega
          | null =>
            rw [pyCmp_arr_left_not ys .null (by intro v he; cases he)] at h2; cases h2
          | bool d =>
            rw [pyCmp_arr_left_not ys (.bool d) (by intro v he; cases he)] at h2; cases h2
          | num y =>
            rw [pyCmp_arr_left_not ys (.num y) (by intro v he; cases he)] at h2; cases h2
          | str t =>
            rw [pyCmp_arr_left_not ys (.str t) (by intro v he; cases he)] at h2; cases h2
          | obj gs => rw [pyCmp_obj_right] at h2; cases h2
        | null => rw [pyCmp_arr_left_not xs .null (by intro v he; cases he)] at h1; cases h1
        | bool d =>
          rw [pyCmp_arr_left_not xs (.bool d) (by intro v he; cases he)] at h1; cases h1
        | num y =>
          rw [pyCmp_arr_left_not xs (.num y) (by intro v he; cases he)] at h1; cases h1
        | str t =>
          rw [pyCmp_arr_left_not xs (.str t) (by intro v he; cases he)] at h1; cases h1
        | obj gs => rw [pyCmp_obj_right] at h1; cases h1

theorem pyCmp_lt_trans (a b c : JValue) (ha : jvalid a = true) (hb : jvalid b = true)
    (hc : jvalid c = true) (h1 : pyCmp a b = some .lt) (h2 : pyCmp b c = some .lt) :
    pyCmp a c = some .lt :=
  pyCmp_lt_trans_aux (sizeOf a + sizeOf b + sizeOf c) a b c le_rfl ha hb hc h1 h2

theorem keysComparable_isSome (L : List JValue) (hv : ∀ x ∈ L, jvalid x = true)
    (hc : SimpleRetriever.keysComparable L = true) :
    ∀ x ∈ L, ∀ y ∈ L, x ≠ y → (pyCmp x y).isSome = true := by
  induction L with
  | nil => intro x hx; cases hx
  | cons k ks ih =>
    simp only [SimpleRetriever.keysComparable, Bool.and_eq_true, List.all_eq_true] at hc
    intro x hx y hy hne
    rcases List.mem_cons.mp hx with rfl | hx'
    · rcases List.mem_cons.mp hy with rfl | hy'
      · exact absurd rfl hne
      · exact hc.1 y hy'
    · rcases List.mem_cons.mp hy with rfl | hy'
      · have h1 := hc.1 x hx'
        have hsw := pyCmp_swap y x (hv y (List.mem_cons_self _ _))
          (hv x (List.mem_cons_of_mem _ hx'))
        rw [hsw, Option.isSome_map']
        exact h1
      · exact ih (fun p hp => hv p (List.mem_cons_of_mem _ hp)) hc.2 x hx' y hy' hne

theorem cmp_nlt_trans (x y z : JValue) (hvx : jvalid x = true) (hvy : jvalid y = true)
    (hvz : jvalid z = true)
    (hxy : x = y ∨ (pyCmp x y).isSome = true)
    (hyz : y = z ∨ (pyCmp y z).isSome = true)
    (h1 : ¬ pyCmp x y = some .lt) (h2 : ¬ pyCmp y z = some .lt) :
    ¬ pyCmp x z = some .lt := by
  intro hac
  rcases hxy with rfl | hxy'
  · exact h2 hac
  rcases hyz with rfl | hyz'
  · exact h1 hac
  obtain ⟨o1, ho1⟩ := Option.isSome_iff_exists.mp hxy'
  obtain ⟨o2, ho2⟩ := Option.isSome_iff_exists.mp hyz'
  cases o1 with
  | lt => exact h1 ho1
  | eq =>
    have he := pyCmp_eq_imp_pyEq x y ho1
    have hcg := pyCmp_congr_left x y z hvx hvy hvz he
    rw [hcg] at hac
    exact h2 hac
  | gt =>
    cases o2 with
    | lt => exact h2 ho2
    | eq =>
      have he := pyCmp_eq_imp_pyEq y z ho2
      have hcg := pyCmp_congr_right y z x hvy hvz hvx he
      rw [← hcg] at hac
      exact h1 hac
    | gt =>
      have hyx : pyCmp y x = some .lt := by
        rw [pyCmp_swap x y hvx hvy, ho1]
        rfl
      have hzy : pyCmp z y = some .lt := by
        rw [pyCmp_swap y z hvy hvz, ho2]
        rfl
      have hzx : pyCmp z x = some .lt := pyCmp_lt_trans z y x hvz hvy hvx hzy hyx
      have hsw := pyCmp_swap x z hvx hvz
      rw [hzx, hac] at hsw
      cases hsw

theorem optOrd_beq_false_iff (x : Option Ordering) (o : Ordering) :
    ((x == some o) = false) ↔ ¬ x = some o := by
  cases x with
  | none => cases o <;> decide
  | some p => cases p <;> cases o <;> decide

theorem sortLe_true_iff (field : String) (a b : Record) :
    SimpleRetriever.sortLe field true a b = true ↔
      ¬ pyCmp (SimpleRetriever.sortKey field a) (SimpleRetriever.sortKey field b) =
        some .lt := by
  show (!(pyCmp (SimpleRetriever.sortKey field a) (SimpleRetriever.sortKey field b) ==
    some Ordering.lt)) = true ↔ _
  rw [Bool.not_eq_true']
  exact optOrd_beq_false_iff _ _

theorem sortLe_false_iff (field : String) (a b : Record) :
    SimpleRetriever.sortLe field false a b = true ↔
      ¬ pyCmp (SimpleRetriever.sortKey field b) (SimpleRetriever.sortKey field a) =
        some .lt := by
  show (!(pyCmp (SimpleRetriever.sortKey field b) (SimpleRetriever.sortKey field a) ==
    some Ordering.lt)) = true ↔ _
  rw [Bool.not_eq_true']
  exact optOrd_beq_false_iff _ _

/-- C3: `sort_by_field` is total — it never raises. With a missing field the
key is the empty string; when the keys of the list are pairwise comparable
the result is a stable sort (a permutation, pairwise ordered by the sort
relation, in which any input pair already in order keeps its relative
order); when they are not — mixed incomparable key types — the whole input
list is returned in its original order. Key validity means the keys lie in
the image of Python's data model. -/
theorem sort_by_field_spec (items : List Record) (field : String) (reverse : Bool)
    (hval : ∀ r ∈ items, jvalid (SimpleRetriever.sortKey field r) = true) :
    (∀ r : Record, List.lookup field r = none →
      SimpleRetriever.sortKey field r = .str "") ∧
    (SimpleRetriever.keysComparable (items.map (SimpleRetriever.sortKey field)) = false →
      SimpleRetriever.sort_by_field items field reverse = items) ∧
    (SimpleRetriever.keysComparable (items.map (SimpleRetriever.sortKey field)) = true →
      (SimpleRetriever.sort_by_field items field reverse).Perm items ∧
      (SimpleRetriever.sort_by_field items field reverse).Pairwise
        (fun a b => SimpleRetriever.sortLe field reverse a b = true) ∧
      (∀ a b : Record, [a, b].Sublist items →
        SimpleRetriever.sortLe field reverse a b = true →
        [a, b].Sublist (SimpleRetriever.sort_by_field items field reverse))) := by
  refine ⟨?_, ?_, ?_⟩
  · intro r hr
    unfold SimpleRetriever.sortKey
    rw [hr]
    rfl
  · intro hfalse
    unfold SimpleRetriever.sort_by_field
    rw [hfalse]
    rfl
  · intro hcomp
    have hkeyvalid : ∀ x ∈ items.map (SimpleRetriever.sortKey field), jvalid x = true := by
      intro x hx
      obtain ⟨r, hr, rfl⟩ := List.mem_map.mp hx
      exact hval r hr
    have hks := keysComparable_isSome _ hkeyvalid hcomp
    have hcmp_or : ∀ a ∈ items, ∀ b ∈ items,
        SimpleRetriever.sortKey field a = SimpleRetriever.sortKey field b ∨
        (pyCmp (SimpleRetriever.sortKey field a)
          (SimpleRetriever.sortKey field b)).isSome = true := by
      intro a ha b hb
      by_cases he : SimpleRetriever.sortKey field a = SimpleRetriever.sortKey field b
      · exact Or.inl he
      · exact Or.inr (hks _ (List.mem_map_of_mem _ ha) _ (List.mem_map_of_mem _ hb) he)
    have htrans : ∀ a ∈ items, ∀ b ∈ items, ∀ c ∈ items,
        SimpleRetriever.sortLe field reverse a b = true →
        SimpleRetriever.sortLe field reverse b c = true →
        SimpleRetriever.sortLe field reverse a c = true := by
      intro a ha b hb c hc hab hbc
      cases reverse
      · rw [sortLe_false_iff] at hab hbc ⊢
        refine cmp_nlt_trans _ _ _ (hval c hc) (hval b hb) (hval a ha) ?_ ?_ hbc hab
        · rcases hcmp_or c hc b hb with he | hs
          · exact Or.inl he
          · exact Or.inr hs
        · rcases hcmp_or b hb a ha with he | hs
          · exact Or.inl he
          · exact Or.inr hs
      · rw [sortLe_true_iff] at hab hbc ⊢
        refine cmp_nlt_trans _ _ _ (hval a ha) (hval b hb) (hval c hc) ?_ ?_ hab hbc
        · rcases hcmp_or a ha b hb with he | hs
          · exact Or.inl he
          · exact Or.inr hs
        · rcases hcmp_or b hb c hc with he | hs
          · exact Or.inl he
          · exact Or.inr hs
    have htotal : ∀ a ∈ items, ∀ b ∈ items,
        (SimpleRetriever.sortLe field reverse a b ||
          SimpleRetriever.sortLe field reverse b a) = true := by
      intro a ha b hb
      rw [Bool.or_eq_true]
      by_cases hlt : pyCmp (SimpleRetriever.sortKey field a)
          (SimpleRetriever.sortKey field b) = some .lt
      · have hgt : pyCmp (SimpleRetriever.sortKey field b)
            (SimpleRetriever.sortKey field a) = some .gt := by
          rw [pyCmp_swap (SimpleRetriever.sortKey field a)
            (SimpleRetriever.sortKey field b) (hval a ha) (hval b hb), hlt]
          rfl
        cases reverse
        · exact Or.inl ((sortLe_false_iff field a b).mpr (by rw [hgt]; intro hx; cases hx))
        · exact Or.inr ((sortLe_true_iff field b a).mpr (by rw [hgt]; intro hx; cases hx))
      · cases reverse
        · exact Or.inr ((sortLe_false_iff field b a).mpr hlt)
        · exact Or.inl ((sortLe_true_iff field a b).mpr hlt)
    have hunfold : SimpleRetriever.sort_by_field items field reverse =
        items.mergeSort (SimpleRetriever.sortLe field reverse) := by
      unfold SimpleRetriever.sort_by_field
      rw [hcomp]
      rfl
    refine ⟨?_, ?_, ?_⟩
    · rw [hunfold]
      exact List.mergeSort_perm items _
    · rw [hunfold]
      exact pairwise_mergeSort_of_local _ items htrans htotal
    · intro a b hsub hle
      rw [hunfold]
      exact pair_sublist_mergeSort_of_local _ items htrans htotal a b hle hsub

/-- Witness for C3 at a two-record list, one record missing the field. -/
theorem sort_by_field_spec_witness :
    (∀ r : Record, List.lookup "t" r = none →
      SimpleRetriever.sortKey "t" r = .str "") ∧
    (SimpleRetriever.keysComparable
        ([[("t", JValue.num 1)], []].map (SimpleRetriever.sortKey "t")) = false →
      SimpleRetriever.sort_by_field [[("t", JValue.num 1)], []] "t" false =
        [[("t", JValue.num 1)], []]) ∧
    (SimpleRetriever.keysComparable
        ([[("t", JValue.num 1)], []].map (SimpleRetriever.sortKey "t")) = true →
      (SimpleRetriever.sort_by_field [[("t", JValue.num 1)], []] "t" false).Perm
        [[("t", JValue.num 1)], []] ∧
      (SimpleRetriever.sort_by_field [[("t", JValue.num 1)], []] "t" false).Pairwise
        (fun a b => SimpleRetriever.sortLe "t" false a b = true) ∧
      (∀ a b : Record, [a, b].Sublist [[("t", JValue.num 1)], []] →
        SimpleRetriever.sortLe "t" false a b = true →
        [a, b].Sublist (SimpleRetriever.sort_by_field [[("t", JValue.num 1)], []] "t" false))) :=
  sort_by_field_spec [[("t", JValue.num 1)], []] "t" false (by
    intro r hr
    rcases (by simpa using hr : r = [("t", JValue.num 1)] ∨ r = []) with rfl | rfl
    · show jvalid (JValue.num 1) = true
      rw [jvalid]
    · show jvalid (JValue.str "") = true
      rw [jvalid])

/-! ## Codec round-trip: character and digit lemmas -/

theorem char_eq_of_toNat {c : Char} {n : Nat} (h : c.toNat = n) : c = Char.ofNat n := by
  rw [← h, Char.ofNat_toNat]

theorem toNat_ofNat_valid (n : Nat) (h : n.isValidChar) : (Char.ofNat n).toNat = n := by
  unfold Char.ofNat
  rw [dif_pos h]
  rfl

theorem char_valid_nat (c : Char) :
    c.toNat < 55296 ∨ (57344 ≤ c.toNat ∧ c.toNat < 1114112) := by
  rcases c.valid with h | ⟨h1, h2⟩
  · exact Or.inl h
  · exact Or.inr ⟨h1, h2⟩

theorem isDigit_bounds (c : Char) (h : c.isDigit = true) : 48 ≤ c.toNat ∧ c.toNat ≤ 57 := by
  simp only [Char.isDigit, Bool.and_eq_true, decide_eq_true_eq] at h
  exact ⟨h.1, h.2⟩

theorem isDigit_of_bounds (c : Char) (h1 : 48 ≤ c.toNat) (h2 : c.toNat ≤ 57) :
    c.isDigit = true := by
  simp only [Char.isDigit, Bool.and_eq_true, decide_eq_true_eq]
  exact ⟨h1, h2⟩

theorem digitChar_toNat (d : Nat) (h : d < 10) : (digitChar d).toNat = 48 + d := by
  unfold digitChar
  exact toNat_ofNat_valid _ (Or.inl (by omega))

theorem digitChar_isDigit (d : Nat) (h : d < 10) : (digitChar d).isDigit = true :=
  isDigit_of_bounds _ (by rw [digitChar_toNat d h]; omega) (by rw [digitChar_toNat d h]; omega)

theorem digitVal_digitChar (d : Nat) (h : d < 10) : digitVal (digitChar d) = d := by
  unfold digitVal
  rw [digitChar_toNat d h]
  omega

theorem natDigits_all_digit (n : Nat) : ∀ c ∈ natDigits n, c.isDigit = true := by
  induction n using Nat.strong_induction_on with
  | _ n ih =>
    rw [natDigits]
    by_cases h : n < 10
    · rw [if_pos h]
      intro c hc
      rw [List.mem_singleton] at hc
      subst hc
      exact digitChar_isDigit n h
    · rw [if_neg h]
      intro c hc
      rcases List.mem_append.mp hc with h1 | h2
      · exact ih (n / 10) (by omega) c h1
      · rw [List.mem_singleton] at h2
        subst h2
        exact digitChar_isDigit _ (Nat.mod_lt _ (by omega))

theorem natDigits_ne_nil (n : Nat) : natDigits n ≠ [] := by
  rw [natDigits]
  by_cases h : n < 10
  · rw [if_pos h]
    simp
  · rw [if_neg h]
    simp

theorem natDigits_foldl (n : Nat) : ∀ acc : Nat,
    (natDigits n).foldl (fun a c => a * 10 + digitVal c) acc =
      acc * 10 ^ (natDigits n).length + n := by
  induction n using Nat.strong_induction_on with
  | _ n ih =>
    intro acc
    rw [natDigits]
    by_cases h : n < 10
    · rw [if_pos h]
      simp only [List.foldl_cons, List.foldl_nil, List.length_cons, List.length_nil]
      rw [digitVal_digitChar n h, pow_one]
    · rw [if_neg h]
      rw [List.foldl_append, List.length_append, ih (n / 10) (by omega) acc]
      simp only [List.foldl_cons, List.foldl_nil, List.length_cons, List.length_nil]
      rw [digitVal_digitChar _ (Nat.mod_lt _ (by omega)), pow_succ]
      have hdm : n / 10 * 10 + n % 10 = n := by omega
      generalize (10 : Nat) ^ (natDigits (n / 10)).length = K
      calc (acc * K + n / 10) * 10 + n % 10
          = acc * (K * 10) + (n / 10 * 10 + n % 10) := by ring
        _ = acc * (K * 10) + n := by rw [hdm]

theorem append_takeWhile_dropWhile (p : Char → Bool) (ds rest : List Char)
    (hall : ∀ c ∈ ds, p c = true) (hrest : ∀ c, rest.head? = some c → p c = false) :
    (ds ++ rest).takeWhile p = ds ∧ (ds ++ rest).dropWhile p = rest := by
  induction ds with
  | nil =>
    simp only [List.nil_append]
    cases rest with
    | nil => exact ⟨rfl, rfl⟩
    | cons c cs =>
      have hc : p c = false := hrest c rfl
      rw [List.takeWhile_cons, List.dropWhile_cons]
      simp only [hc]
      exact ⟨rfl, rfl⟩
  | cons d ds ih =>
    have hd : p d = true := hall d (List.mem_cons_self _ _)
    rw [List.cons_append, List.takeWhile_cons, List.dropWhile_cons]
    simp only [hd, if_true]
    have h2 := ih (fun c hc => hall c (List.mem_cons_of_mem _ hc))
    exact ⟨by rw [h2.1], h2.2⟩

theorem readNatNum_planted (n : Nat) (rest : List Char)
    (hrest : ∀ c, rest.head? = some c →
      c.isDigit = false ∧ c ≠ '.' ∧ c ≠ 'e' ∧ c ≠ 'E') :
    readNatNum (natDigits n ++ rest) = some (n, rest) := by
  unfold readNatNum
  have hspan := List.span_eq_take_drop (fun c => c.isDigit) (natDigits n ++ rest)
  have hsplit := append_takeWhile_dropWhile (fun c => c.isDigit) (natDigits n) rest
    (natDigits_all_digit n) (fun c hc => (hrest c hc).1)
  rw [hspan, hsplit.1, hsplit.2]
  obtain ⟨d, ds, hnd⟩ := List.exists_cons_of_ne_nil (natDigits_ne_nil n)
  rw [hnd]
  simp only []
  have hfold : (d :: ds).foldl (fun a c => a * 10 + digitVal c) 0 = n := by
    rw [← hnd, natDigits_foldl n 0]
    simp
  rw [hfold]
  cases rest with
  | nil => rfl
  | cons c cs =>
    obtain ⟨_, h2, h3, h4⟩ := hrest c rfl
    simp only []
    rw [if_neg]
    simp only [Bool.or_eq_true, decide_eq_true_eq]
    push_neg
    exact ⟨⟨h2, h3⟩, h4⟩

theorem digitChar2_toNat (d : Nat) (h : d < 16) :
    (digitChar2 d).toNat = if d < 10 then 48 + d else 87 + d := by
  unfold digitChar2
  split_ifs with h1
  · exact toNat_ofNat_valid _ (Or.inl (by omega))
  · exact toNat_ofNat_valid _ (Or.inl (by omega))

theorem digitChar2_isHexDig (d : Nat) (h : d < 16) : isHexDig (digitChar2 d) = true := by
  unfold isHexDig
  have ht := digitChar2_toNat d h
  by_cases h1 : d < 10
  · rw [if_pos h1] at ht
    have hd : (digitChar2 d).isDigit = true := isDigit_of_bounds _ (by omega) (by omega)
    simp [hd]
  · rw [if_neg h1] at ht
    simp only [Bool.or_eq_true, Bool.and_eq_true, decide_eq_true_eq]
    exact Or.inl (Or.inr ⟨by omega, by omega⟩)

theorem hexVal_digitChar2 (d : Nat) (h : d < 16) : hexVal (digitChar2 d) = d := by
  unfold hexVal
  have ht := digitChar2_toNat d h
  by_cases h1 : d < 10
  · rw [if_pos h1] at ht
    rw [ht, if_pos (by omega)]
    omega
  · rw [if_neg h1] at ht
    rw [ht, if_neg (by omega), if_neg (by omega)]
    omega

theorem readHex4_planted (n : Nat) (rest : List Char) (h : n < 65536) :
    readHex4 (escHex4 n ++ rest) = some (n, rest) := by
  unfold escHex4 readHex4
  simp only [List.cons_append, List.nil_append]
  rw [digitChar2_isHexDig _ (by omega), digitChar2_isHexDig _ (by omega),
    digitChar2_isHexDig _ (by omega), digitChar2_isHexDig _ (by omega)]
  simp only [Bool.and_self, if_true]
  rw [hexVal_digitChar2 _ (by omega), hexVal_digitChar2 _ (by omega),
    hexVal_digitChar2 _ (by omega), hexVal_digitChar2 _ (by omega)]
  have harith : ((n / 4096 % 16 * 16 + n / 256 % 16) * 16 + n / 16 % 16) * 16 + n % 16 = n := by
    omega
  rw [harith]

theorem length_le_flatMap_esc (s : List Char) : s.length ≤ (s.flatMap jsonEscChar).length := by
  induction s with
  | nil => simp
  | cons c cs ih =>
    rw [List.flatMap_cons, List.length_append, List.length_cons]
    have h1 : 1 ≤ (jsonEscChar c).length := by
      unfold jsonEscChar
      split_ifs <;> simp [escHex4]
    omega

theorem strBody_u_pair (f n m : Nat) (t1 t2 t3 s r : List Char)
    (h1 : readHex4 t1 = some (n, bslash :: 'u' :: t2))
    (hn : (55296 ≤ n && n ≤ 56319) = true)
    (h2 : readHex4 t2 = some (m, t3))
    (hm : (56320 ≤ m && m ≤ 57343) = true)
    (h3 : parseStrBody f t3 = some (s, r)) :
    parseStrBody (f + 1) (bslash :: 'u' :: t1) =
      some (Char.ofNat (65536 + (n - 55296) * 1024 + (m - 56320)) :: s, r) := by
  have hd1 : ¬ (bslash = dquote) := by decide
  have hd2 : ¬ ('u' = dquote) := by decide
  have hd3 : ¬ ('u' = bslash) := by decide
  have hd4 : ¬ ('u' = '/') := by decide
  have hd5 : ¬ ('u' = 'b') := by decide
  have hd6 : ¬ ('u' = 'f') := by decide
  have hd7 : ¬ ('u' = 'n') := by decide
  have hd8 : ¬ ('u' = 'r') := by decide
  have hd9 : ¬ ('u' = 't') := by decide
  rw [parseStrBody]
  simp [hd1, hd2, hd3, hd4, hd5, hd6, hd7, hd8, hd9, h1, hn, h2, hm, h3]

theorem parseStrBody_planted : ∀ (s : List Char) (fuel : Nat) (rest : List Char),
    s.length < fuel →
    parseStrBody fuel (s.flatMap jsonEscChar ++ dquote :: rest) = some (s, rest) := by
  intro s
  induction s with
  | nil =>
    intro fuel rest hf
    cases fuel with
    | zero => exact absurd hf (Nat.not_lt_zero _)
    | succ f => simp [parseStrBody]
  | cons c s' ih =>
    intro fuel rest hf
    cases fuel with
    | zero => exact absurd hf (Nat.not_lt_zero _)
    | succ f =>
      have hf' : s'.length < f := by
        rw [List.length_cons] at hf
        omega
      have ihs := ih f rest hf'
      rw [List.flatMap_cons, List.append_assoc]
      by_cases h1 : c = dquote
      · have hesc : jsonEscChar c = [bslash, dquote] := by
          unfold jsonEscChar
          rw [if_pos h1]
        rw [hesc, h1]
        simp only [List.cons_append, List.nil_append]
        simp +decide [parseStrBody, ihs]
      · by_cases h2 : c = bslash
        · have hesc : jsonEscChar c = [bslash, bslash] := by
            unfold jsonEscChar
            rw [if_neg h1, if_pos h2]
          rw [hesc, h2]
          simp only [List.cons_append, List.nil_append]
          simp +decide [parseStrBody, ihs]
        · by_cases h3 : c.toNat = 8
          · have hesc : jsonEscChar c = [bslash, 'b'] := by
              unfold jsonEscChar
              rw [if_neg h1, if_neg h2, if_pos h3]
            rw [hesc, char_eq_of_toNat h3]
            simp only [List.cons_append, List.nil_append]
            simp +decide [parseStrBody, ihs]
          · by_cases h4 : c.toNat = 9
            · have hesc : jsonEscChar c = [bslash, 't'] := by
                unfold jsonEscChar
                rw [if_neg h1, if_neg h2, if_neg h3, if_pos h4]
              rw [hesc, char_eq_of_toNat h4]
              simp only [List.cons_append, List.nil_append]
              simp +decide [parseStrBody, ihs]
            · by_cases h5 : c.toNat = 10
              · have hesc : jsonEscChar c = [bslash, 'n'] := by
                  unfold jsonEscChar
                  rw [if_neg h1, if_neg h2, if_neg h3, if_neg h4, if_pos h5]
                rw [hesc, char_eq_of_toNat h5]
                simp only [List.cons_append, List.nil_append]
                simp +decide [parseStrBody, ihs]
              · by_cases h6 : c.toNat = 12
                · have hesc : jsonEscChar c = [bslash, 'f'] := by
                    unfold jsonEscChar
                    rw [if_neg h1, if_neg h2, if_neg h3, if_neg h4, if_neg h5, if_pos h6]
                  rw [hesc, char_eq_of_toNat h6]
                  simp only [List.cons_append, List.nil_append]
                  simp +decide [parseStrBody, ihs]
                · by_cases h7 : c.toNat = 13
                  · have hesc : jsonEscChar c = [bslash, 'r'] := by
                      unfold jsonEscChar
                      rw [if_neg h1, if_neg h2, if_neg h3, if_neg h4, if_neg h5, if_neg h6,
                        if_pos h7]
                    rw [hesc, char_eq_of_toNat h7]
                    simp only [List.cons_append, List.nil_append]
                    simp +decide [parseStrBody, ihs]
                  · by_cases h8 : (32 ≤ c.toNat && c.toNat ≤ 126) = true
                    · have hesc : jsonEscChar c = [c] := by
                        unfold jsonEscChar
                        rw [if_neg h1, if_neg h2, if_neg h3, if_neg h4, if_neg h5, if_neg h6,
                          if_neg h7, if_pos h8]
                      rw [hesc]
                      rw [Bool.and_eq_true, decide_eq_true_eq, decide_eq_true_eq] at h8
                      have hq : ¬ (c.toNat < 32) := by omega
                      simp only [List.singleton_append]
                      simp [parseStrBody, h1, h2, hq, ihs]
                    · by_cases h9 : c.toNat < 65536
                      · have hesc : jsonEscChar c = bslash :: 'u' :: escHex4 c.toNat := by
                          unfold jsonEscChar
                          rw [if_neg h1, if_neg h2, if_neg h3, if_neg h4, if_neg h5, if_neg h6,
                            if_neg h7, if_neg h8, if_pos h9]
                        rw [hesc]
                        have hs1 : (55296 ≤ c.toNat && c.toNat ≤ 56319) = false := by
                          rcases char_valid_nat c with hv | hv <;> simp <;> omega
                        have hs2 : (56320 ≤ c.toNat && c.toNat ≤ 57343) = false := by
                          rcases char_valid_nat c with hv | hv <;> simp <;> omega
                        simp only [List.cons_append]
                        simp +decide [parseStrBody, readHex4_planted _ _ h9, hs1, hs2, ihs,
                          Char.ofNat_toNat]
                      · have hesc : jsonEscChar c =
                            (bslash :: 'u' :: escHex4 (55296 + (c.toNat - 65536) / 1024)) ++
                              (bslash :: 'u' :: escHex4 (56320 + (c.toNat - 65536) % 1024)) := by
                          unfold jsonEscChar
                          rw [if_neg h1, if_neg h2, if_neg h3, if_neg h4, if_neg h5, if_neg h6,
                            if_neg h7, if_neg h8, if_neg h9]
                        rw [hesc]
                        have hup : 65536 ≤ c.toNat ∧ c.toNat < 1114112 := by
                          rcases char_valid_nat c with hv | hv <;> omega
                        have hhi : (c.toNat - 65536) / 1024 < 1024 := by omega
                        have hlo : (c.toNat - 65536) % 1024 < 1024 := Nat.mod_lt _ (by omega)
                        have hs1 : (55296 ≤ 55296 + (c.toNat - 65536) / 1024 &&
                            55296 + (c.toNat - 65536) / 1024 ≤ 56319) = true := by
                          simp
                          omega
                        have hs2 : (56320 ≤ 56320 + (c.toNat - 65536) % 1024 &&
                            56320 + (c.toNat - 65536) % 1024 ≤ 57343) = true := by
                          simp
                          omega
                        have harith : 65536 + (55296 + (c.toNat - 65536) / 1024 - 55296) * 1024 +
                            (56320 + (c.toNat - 65536) % 1024 - 56320) = c.toNat := by
                          omega
                        simp only [List.cons_append, List.append_assoc]
                        rw [strBody_u_pair f _ _ _ _ _ s' rest
                          (readHex4_planted _ _ (show 55296 +
                            (c.toNat - 65536) / 1024 < 65536 by omega))
                          hs1
                          (readHex4_planted _ _ (show 56320 +
                            (c.toNat - 65536) % 1024 < 65536 by omega))
                          hs2 ihs, harith, Char.ofNat_toNat]

theorem skipWs_cons_not (c : Char) (cs : List Char) (h : isWsChar c = false) :
    skipWs (c :: cs) = c :: cs := by
  unfold skipWs
  rw [List.dropWhile_cons]
  simp [h]

theorem skipWs_cons_ws (c : Char) (cs : List Char) (h : isWsChar c = true) :
    skipWs (c :: cs) = skipWs cs := by
  unfold skipWs
  rw [List.dropWhile_cons]
  simp [h]

theorem printJson_shape (v : JValue) : ∃ c cs, printJson v = c :: cs ∧
    isWsChar c = false ∧ c ≠ ']' ∧ c ≠ rbrace := by
  cases v with
  | null =>
    refine ⟨'n', _, rfl, ?_, ?_, ?_⟩ <;> decide
  | bool b =>
    cases b with
    | true => refine ⟨'t', _, rfl, ?_, ?_, ?_⟩ <;> decide
    | false => refine ⟨'f', _, rfl, ?_, ?_, ?_⟩ <;> decide
  | num n =>
    rw [printJson]
    unfold intDigits
    by_cases hn : n < 0
    · rw [if_pos hn]
      exact ⟨'-', _, rfl, by decide, by decide, by decide⟩
    · rw [if_neg hn]
      obtain ⟨d, ds, hd⟩ := List.exists_cons_of_ne_nil (natDigits_ne_nil n.natAbs)
      have hdig : d.isDigit = true :=
        natDigits_all_digit _ d (by rw [hd]; exact List.mem_cons_self _ _)
      obtain ⟨hb1, hb2⟩ := isDigit_bounds d hdig
      refine ⟨d, ds, hd, ?_, ?_, ?_⟩
      · rw [Bool.eq_false_iff]
        intro hws
        unfold isWsChar at hws
        simp only [Bool.or_eq_true, decide_eq_true_eq] at hws
        omega
      · intro he
        rw [he] at hdig
        exact absurd hdig (by decide)
      · intro he
        rw [he] at hdig
        exact absurd hdig (by decide)
  | str s => refine ⟨dquote, _, rfl, ?_, ?_, ?_⟩ <;> decide
  | arr l =>
    cases l with
    | nil => refine ⟨'[', _, rfl, ?_, ?_, ?_⟩ <;> decide
    | cons x xs => refine ⟨'[', _, rfl, ?_, ?_, ?_⟩ <;> decide
  | obj fs =>
    cases fs with
    | nil => refine ⟨lbrace, _, rfl, ?_, ?_, ?_⟩ <;> decide
    | cons kv fs' =>
      obtain ⟨k, v⟩ := kv
      refine ⟨lbrace, _, rfl, ?_, ?_, ?_⟩ <;> decide

theorem printJson_length_pos (v : JValue) : 1 ≤ (printJson v).length := by
  obtain ⟨c, cs, h, _⟩ := printJson_shape v
  rw [h]
  simp

theorem jsonEscStr_length (s : String) :
    (jsonEscStr s).length = (s.data.flatMap jsonEscChar).length + 2 := by
  unfold jsonEscStr
  rw [List.length_append, List.length_cons, List.length_cons, List.length_nil]

theorem arrTail_shape (xs : List JValue) (r : List Char) : ∃ c cs,
    printArrTail xs ++ ']' :: r = c :: cs ∧ isWsChar c = false ∧
    c.isDigit = false ∧ c ≠ '.' ∧ c ≠ 'e' ∧ c ≠ 'E' ∧ c ≠ '"' := by
  cases xs with
  | nil =>
    refine ⟨']', r, ?_, by decide, by decide, by decide, by decide, by decide, by decide⟩
    rw [printArrTail, List.nil_append]
  | cons y ys =>
    rw [printArrTail, List.cons_append, List.cons_append]
    exact ⟨',', _, rfl, by decide, by decide, by decide, by decide, by decide, by decide⟩

theorem objTail_shape (fs : List (String × JValue)) (r : List Char) : ∃ c cs,
    printObjTail fs ++ rbrace :: r = c :: cs ∧ isWsChar c = false ∧
    c.isDigit = false ∧ c ≠ '.' ∧ c ≠ 'e' ∧ c ≠ 'E' ∧ c ≠ '"' := by
  cases fs with
  | nil =>
    refine ⟨rbrace, r, ?_, by decide, by decide, by decide, by decide, by decide, by decide⟩
    rw [printObjTail, List.nil_append]
  | cons kv fs' =>
    obtain ⟨k, v⟩ := kv
    rw [printObjTail, List.cons_append, List.cons_append]
    exact ⟨',', _, rfl, by decide, by decide, by decide, by decide, by decide, by decide⟩

theorem dictInsert_append (acc : List (String × JValue)) (k : String) (v : JValue)
    (h : ∀ kv ∈ acc, kv.1 ≠ k) : dictInsert acc k v = acc ++ [(k, v)] := by
  unfold dictInsert
  rw [if_neg (by
    intro hx
    rw [List.any_eq_true] at hx
    obtain ⟨kv, hkv, hbeq⟩ := hx
    exact h kv hkv (by simpa using hbeq))]

theorem dictFold_app : ∀ (ps acc : List (String × JValue)),
    (∀ kv1 ∈ acc, ∀ kv2 ∈ ps, kv1.1 ≠ kv2.1) → (ps.map Prod.fst).Nodup →
    ps.foldl (fun acc kv => dictInsert acc kv.1 kv.2) acc = acc ++ ps := by
  intro ps
  induction ps with
  | nil =>
    intro acc h1 h2
    simp
  | cons p ps ih =>
    intro acc hdisj hnd
    rw [List.foldl_cons,
      dictInsert_append acc p.1 p.2 (fun kv hkv => hdisj kv hkv p (List.mem_cons_self _ _))]
    rw [List.map_cons, List.nodup_cons] at hnd
    have hih := ih (acc ++ [(p.1, p.2)]) ?_ hnd.2
    · rw [hih]
      simp
    · intro kv1 hkv1 kv2 hkv2
      rcases List.mem_append.mp hkv1 with h1 | h1
      · exact hdisj kv1 h1 kv2 (List.mem_cons_of_mem _ hkv2)
      · rw [List.mem_singleton] at h1
        subst h1
        intro he
        exact hnd.1 (he ▸ List.mem_map_of_mem Prod.fst hkv2)

theorem dictOfPairs_nodup (ps : List (String × JValue)) (h : (ps.map Prod.fst).Nodup) :
    dictOfPairs ps = ps := by
  unfold dictOfPairs
  rw [dictFold_app ps [] (by intro kv1 hkv1; cases hkv1) h]
  rw [List.nil_append]

theorem string_mk_data (s : String) : String.mk s.data = s := by
  cases s
  rfl

theorem pj_unfold (F : Nat) (c : Char) (t : List Char) :
    parseJson (F + 1) (c :: t) =
      (if c = 'n' then
        match t with
        | 'u' :: 'l' :: 'l' :: rest' => some (JValue.null, rest')
        | _ => none
      else if c = 't' then
        match t with
        | 'r' :: 'u' :: 'e' :: rest' => some (JValue.bool true, rest')
        | _ => none
      else if c = 'f' then
        match t with
        | 'a' :: 'l' :: 's' :: 'e' :: rest' => some (JValue.bool false, rest')
        | _ => none
      else if c = '-' then
        match readNatNum t with
        | some (n, rest') => some (JValue.num (-(n : Int)), rest')
        | none => none
      else if c = dquote then
        match parseStrBody F t with
        | some (s, rest') => some (JValue.str (String.mk s), rest')
        | none => none
      else if c = '[' then
        if (skipWs t).headD ' ' = ']' then some (JValue.arr [], (skipWs t).tail)
        else
          match parseJson F (skipWs t) with
          | some (v, r2) =>
            match parseArrTail F (skipWs r2) with
            | some (vs, r3) => some (JValue.arr (v :: vs), r3)
            | none => none
          | none => none
      else if c = lbrace then
        if (skipWs t).headD ' ' = rbrace then some (JValue.obj [], (skipWs t).tail)
        else
          match parseMember F (skipWs t) with
          | some (kv, r2) =>
            match parseObjTail F (skipWs r2) with
            | some (kvs, r3) => some (JValue.obj (dictOfPairs (kv :: kvs)), r3)
            | none => none
          | none => none
      else if c.isDigit then
        match readNatNum (c :: t) with
        | some (n, rest') => some (JValue.num (n : Int), rest')
        | none => none
      else none) := rfl

theorem pm_unfold (F : Nat) (c : Char) (t : List Char) :
    parseMember (F + 1) (c :: t) =
      (if c = dquote then
        match parseStrBody F t with
        | some (k, r1) =>
          match skipWs r1 with
          | ':' :: r2 =>
            match parseJson F (skipWs r2) with
            | some (v, r3) => some ((String.mk k, v), r3)
            | none => none
          | _ => none
        | none => none
      else none) := rfl

theorem pa_unfold (F : Nat) (c : Char) (t : List Char) :
    parseArrTail (F + 1) (c :: t) =
      (if c = ']' then some ([], t)
      else if c = ',' then
        match parseJson F (skipWs t) with
        | some (v, r2) =>
          match parseArrTail F (skipWs r2) with
          | some (vs, r3) => some (v :: vs, r3)
          | none => none
        | none => none
      else none) := rfl

theorem po_unfold (F : Nat) (c : Char) (t : List Char) :
    parseObjTail (F + 1) (c :: t) =
      (if c = rbrace then some ([], t)
      else if c = ',' then
        match parseMember F (skipWs t) with
        | some (kv, r2) =>
          match parseObjTail F (skipWs r2) with
          | some (kvs, r3) => some (kv :: kvs, r3)
          | none => none
        | none => none
      else none) := rfl

theorem pj_null_step (F : Nat) (t : List Char) :
    parseJson (F + 1) ('n' :: 'u' :: 'l' :: 'l' :: t) = some (.null, t) := by
  rw [pj_unfold, if_pos rfl]
  rfl

theorem pj_true_step (F : Nat) (t : List Char) :
    parseJson (F + 1) ('t' :: 'r' :: 'u' :: 'e' :: t) = some (.bool true, t) := by
  have d1 : ¬ ('t' = 'n') := by decide
  rw [pj_unfold, if_neg d1, if_pos rfl]
  rfl

theorem pj_false_step (F : Nat) (t : List Char) :
    parseJson (F + 1) ('f' :: 'a' :: 'l' :: 's' :: 'e' :: t) = some (.bool false, t) := by
  have d1 : ¬ ('f' = 'n') := by decide
  have d2 : ¬ ('f' = 't') := by decide
  rw [pj_unfold, if_neg d1, if_neg d2, if_pos rfl]
  rfl

theorem pj_neg_step (F : Nat) (t : List Char) (n : Nat) (r : List Char)
    (h : readNatNum t = some (n, r)) :
    parseJson (F + 1) ('-' :: t) = some (.num (-(n : Int)), r) := by
  have d1 : ¬ ('-' = 'n') := by decide
  have d2 : ¬ ('-' = 't') := by decide
  have d3 : ¬ ('-' = 'f') := by decide
  rw [pj_unfold, if_neg d1, if_neg d2, if_neg d3, if_pos rfl, h]

theorem pj_str_step (F : Nat) (t s r : List Char) (h : parseStrBody F t = some (s, r)) :
    parseJson (F + 1) (dquote :: t) = some (.str (String.mk s), r) := by
  have d1 : ¬ (dquote = 'n') := by decide
  have d2 : ¬ (dquote = 't') := by decide
  have d3 : ¬ (dquote = 'f') := by decide
  have d4 : ¬ (dquote = '-') := by decide
  rw [pj_unfold, if_neg d1, if_neg d2, if_neg d3, if_neg d4, if_pos rfl, h]

theorem pj_arr_nil_step (F : Nat) (t r : List Char) (h : skipWs t = ']' :: r) :
    parseJson (F + 1) ('[' :: t) = some (.arr [], r) := by
  have d1 : ¬ ('[' = 'n') := by decide
  have d2 : ¬ ('[' = 't') := by decide
  have d3 : ¬ ('[' = 'f') := by decide
  have d4 : ¬ ('[' = '-') := by decide
  have d5 : ¬ ('[' = dquote) := by decide
  rw [pj_unfold, if_neg d1, if_neg d2, if_neg d3, if_neg d4, if_neg d5, if_pos rfl, h,
    List.headD_cons, if_pos rfl, List.tail_cons]

theorem pj_arr_cons_step (F : Nat) (t : List Char) (v : JValue) (r2 : List Char)
    (vs : List JValue) (r3 : List Char) (h0 : skipWs t = t) (hhd : ¬ (t.headD ' ' = ']'))
    (h1 : parseJson F t = some (v, r2)) (h2 : parseArrTail F (skipWs r2) = some (vs, r3)) :
    parseJson (F + 1) ('[' :: t) = some (.arr (v :: vs), r3) := by
  have d1 : ¬ ('[' = 'n') := by decide
  have d2 : ¬ ('[' = 't') := by decide
  have d3 : ¬ ('[' = 'f') := by decide
  have d4 : ¬ ('[' = '-') := by decide
  have d5 : ¬ ('[' = dquote) := by decide
  rw [pj_unfold, if_neg d1, if_neg d2, if_neg d3, if_neg d4, if_neg d5, if_pos rfl, h0,
    if_neg hhd, h1]
  simp only []
  rw [h2]

theorem pj_obj_nil_step (F : Nat) (t r : List Char) (h : skipWs t = rbrace :: r) :
    parseJson (F + 1) (lbrace :: t) = some (.obj [], r) := by
  have d1 : ¬ (lbrace = 'n') := by decide
  have d2 : ¬ (lbrace = 't') := by decide
  have d3 : ¬ (lbrace = 'f') := by decide
  have d4 : ¬ (lbrace = '-') := by decide
  have d5 : ¬ (lbrace = dquote) := by decide
  have d6 : ¬ (lbrace = '[') := by decide
  rw [pj_unfold, if_neg d1, if_neg d2, if_neg d3, if_neg d4, if_neg d5, if_neg d6, if_pos rfl,
    h, List.headD_cons, if_pos rfl, List.tail_cons]

theorem pj_obj_cons_step (F : Nat) (t : List Char) (kv : String × JValue) (r2 : List Char)
    (kvs : List (String × JValue)) (r3 : List Char) (h0 : skipWs t = t)
    (hhd : ¬ (t.headD ' ' = rbrace)) (h1 : parseMember F t = some (kv, r2))
    (h2 : parseObjTail F (skipWs r2) = some (kvs, r3)) :
    parseJson (F + 1) (lbrace :: t) = some (.obj (dictOfPairs (kv :: kvs)), r3) := by
  have d1 : ¬ (lbrace = 'n') := by decide
  have d2 : ¬ (lbrace = 't') := by decide
  have d3 : ¬ (lbrace = 'f') := by decide
  have d4 : ¬ (lbrace = '-') := by decide
  have d5 : ¬ (lbrace = dquote) := by decide
  have d6 : ¬ (lbrace = '[') := by decide
  rw [pj_unfold, if_neg d1, if_neg d2, if_neg d3, if_neg d4, if_neg d5, if_neg d6, if_pos rfl,
    h0, if_neg hhd, h1]
  simp only []
  rw [h2]

theorem pj_digit_step (F : Nat) (c : Char) (t : List Char) (n : Nat) (r : List Char)
    (hdig : c.isDigit = true) (h : readNatNum (c :: t) = some (n, r)) :
    parseJson (F + 1) (c :: t) = some (.num (n : Int), r) := by
  have d1 : ¬ (c = 'n') := fun he => by rw [he] at hdig; exact absurd hdig (by decide)
  have d2 : ¬ (c = 't') := fun he => by rw [he] at hdig; exact absurd hdig (by decide)
  have d3 : ¬ (c = 'f') := fun he => by rw [he] at hdig; exact absurd hdig (by decide)
  have d4 : ¬ (c = '-') := fun he => by rw [he] at hdig; exact absurd hdig (by decide)
  have d5 : ¬ (c = dquote) := fun he => by rw [he] at hdig; exact absurd hdig (by decide)
  have d6 : ¬ (c = '[') := fun he => by rw [he] at hdig; exact absurd hdig (by decide)
  have d7 : ¬ (c = lbrace) := fun he => by rw [he] at hdig; exact absurd hdig (by decide)
  rw [pj_unfold, if_neg d1, if_neg d2, if_neg d3, if_neg d4, if_neg d5, if_neg d6, if_neg d7,
    if_pos hdig, h]

theorem pm_step (F : Nat) (t kc r1 : List Char) (r2 : List Char) (v : JValue) (r3 : List Char)
    (h1 : parseStrBody F t = some (kc, r1)) (h2 : skipWs r1 = ':' :: r2)
    (h3 : parseJson F (skipWs r2) = some (v, r3)) :
    parseMember (F + 1) (dquote :: t) = some ((String.mk kc, v), r3) := by
  rw [pm_unfold, if_pos rfl, h1]
  simp only []
  rw [h2]
  simp only []
  rw [h3]

theorem pa_nil_step (F : Nat) (r : List Char) :
    parseArrTail (F + 1) (']' :: r) = some ([], r) := by
  rw [pa_unfold, if_pos rfl]

theorem pa_cons_step (F : Nat) (t : List Char) (v : JValue) (r2 : List Char)
    (vs : List JValue) (r3 : List Char)
    (h1 : parseJson F (skipWs t) = some (v, r2))
    (h2 : parseArrTail F (skipWs r2) = some (vs, r3)) :
    parseArrTail (F + 1) (',' :: t) = some (v :: vs, r3) := by
  have d1 : ¬ (',' = ']') := by decide
  rw [pa_unfold, if_neg d1, if_pos rfl, h1]
  simp only []
  rw [h2]

theorem po_nil_step (F : Nat) (r : List Char) :
    parseObjTail (F + 1) (rbrace :: r) = some ([], r) := by
  rw [po_unfold, if_pos rfl]

theorem po_cons_step (F : Nat) (t : List Char) (kv : String × JValue) (r2 : List Char)
    (kvs : List (String × JValue)) (r3 : List Char)
    (h1 : parseMember F (skipWs t) = some (kv, r2))
    (h2 : parseObjTail F (skipWs r2) = some (kvs, r3)) :
    parseObjTail (F + 1) (',' :: t) = some (kv :: kvs, r3) := by
  have d1 : ¬ (',' = rbrace) := by decide
  rw [po_unfold, if_neg d1, if_pos rfl, h1]
  simp only []
  rw [h2]

theorem skipWs_printJson_append (v : JValue) (X : List Char) :
    skipWs (printJson v ++ X) = printJson v ++ X := by
  obtain ⟨c, cs, h, hws, _, _⟩ := printJson_shape v
  rw [h, List.cons_append]
  exact skipWs_cons_not _ _ hws

theorem printJson_append_headD_ne (v : JValue) (X : List Char) (b : Char) :
    ¬ ((printJson v ++ X).headD b = ']') ∧ ¬ ((printJson v ++ X).headD b = rbrace) := by
  obtain ⟨c, cs, h, _, hnb, hnr⟩ := printJson_shape v
  rw [h, List.cons_append, List.headD_cons]
  exact ⟨hnb, hnr⟩

theorem skipWs_escStr_append (k : String) (X : List Char) :
    skipWs (jsonEscStr k ++ X) = jsonEscStr k ++ X := by
  unfold jsonEscStr
  simp only [List.cons_append]
  exact skipWs_cons_not _ _ (by decide)

theorem escStr_append_headD (k : String) (X : List Char) (b : Char) :
    (jsonEscStr k ++ X).headD b = dquote := by
  unfold jsonEscStr
  simp only [List.cons_append, List.headD_cons]

theorem skipWs_arrTail_append (xs : List JValue) (r : List Char) :
    skipWs (printArrTail xs ++ ']' :: r) = printArrTail xs ++ ']' :: r := by
  obtain ⟨c, cs, h, hws, _⟩ := arrTail_shape xs r
  rw [h]
  exact skipWs_cons_not _ _ hws

theorem skipWs_objTail_append (fs : List (String × JValue)) (r : List Char) :
    skipWs (printObjTail fs ++ rbrace :: r) = printObjTail fs ++ rbrace :: r := by
  obtain ⟨c, cs, h, hws, _⟩ := objTail_shape fs r
  rw [h]
  exact skipWs_cons_not _ _ hws

theorem arrTail_numTerm (xs : List JValue) (r : List Char) :
    ∀ c, (printArrTail xs ++ ']' :: r).head? = some c →
      c.isDigit = false ∧ c ≠ '.' ∧ c ≠ 'e' ∧ c ≠ 'E' := by
  obtain ⟨c0, cs0, h, _, hd, h1, h2, h3, _⟩ := arrTail_shape xs r
  intro c hc
  rw [h, List.head?_cons] at hc
  injection hc with hc
  subst hc
  exact ⟨hd, h1, h2, h3⟩

theorem objTail_numTerm (fs : List (String × JValue)) (r : List Char) :
    ∀ c, (printObjTail fs ++ rbrace :: r).head? = some c →
      c.isDigit = false ∧ c ≠ '.' ∧ c ≠ 'e' ∧ c ≠ 'E' := by
  obtain ⟨c0, cs0, h, _, hd, h1, h2, h3, _⟩ := objTail_shape fs r
  intro c hc
  rw [h, List.head?_cons] at hc
  injection hc with hc
  subst hc
  exact ⟨hd, h1, h2, h3⟩

theorem jvalid_obj_parts {fs : List (String × JValue)} (h : jvalid (.obj fs) = true) :
    ((fs.map Prod.fst).Nodup) ∧ jvalidFields fs = true := by
  rw [jvalid, Bool.and_eq_true, decide_eq_true_eq] at h
  exact h

theorem jvalidFields_cons {k : String} {v : JValue} {fs : List (String × JValue)}
    (h : jvalidFields ((k, v) :: fs) = true) :
    jvalid v = true ∧ jvalidFields fs = true := by
  rw [jvalidFields, Bool.and_eq_true] at h
  exact h

theorem jvalidList_cons {x : JValue} {xs : List JValue}
    (h : jvalidList (x :: xs) = true) : jvalid x = true ∧ jvalidList xs = true := by
  rw [jvalidList, Bool.and_eq_true] at h
  exact h

theorem parse_print_roundtrip : ∀ fuel : Nat,
    (∀ v rest, jvalid v = true → (printJson v).length < fuel →
      (∀ c, rest.head? = some c → c.isDigit = false ∧ c ≠ '.' ∧ c ≠ 'e' ∧ c ≠ 'E') →
      parseJson fuel (printJson v ++ rest) = some (v, rest)) ∧
    (∀ k v rest, jvalid v = true →
      (jsonEscStr k).length + 2 + (printJson v).length ≤ fuel →
      (∀ c, rest.head? = some c → c.isDigit = false ∧ c ≠ '.' ∧ c ≠ 'e' ∧ c ≠ 'E') →
      parseMember fuel (jsonEscStr k ++ ':' :: ' ' :: (printJson v ++ rest)) =
        some ((k, v), rest)) ∧
    (∀ vs rest, jvalidList vs = true → (printArrTail vs).length + 1 ≤ fuel →
      parseArrTail fuel (printArrTail vs ++ ']' :: rest) = some (vs, rest)) ∧
    (∀ fs rest, jvalidFields fs = true → (printObjTail fs).length + 1 ≤ fuel →
      parseObjTail fuel (printObjTail fs ++ rbrace :: rest) = some (fs, rest)) := by
  intro fuel
  induction fuel with
  | zero =>
    refine ⟨?_, ?_, ?_, ?_⟩
    · intro v rest _ hlen _
      exact absurd hlen (Nat.not_lt_zero _)
    · intro k v rest _ hlen _
      have := printJson_length_pos v
      omega
    · intro vs rest _ hlen
      omega
    · intro fs rest _ hlen
      omega
  | succ F ih =>
    obtain ⟨ihJ, ihM, ihA, ihO⟩ := ih
    refine ⟨?_, ?_, ?_, ?_⟩
    · intro v rest hval hlen hnt
      cases v with
      | null =>
        have e : "null".data = ['n', 'u', 'l', 'l'] := rfl
        rw [printJson, e]
        simp only [List.cons_append, List.nil_append]
        exact pj_null_step F rest
      | bool b =>
        cases b with
        | true =>
          have e : "true".data = ['t', 'r', 'u', 'e'] := rfl
          rw [printJson, e]
          simp only [List.cons_append, List.nil_append]
          exact pj_true_step F rest
        | false =>
          have e : "false".data = ['f', 'a', 'l', 's', 'e'] := rfl
          rw [printJson, e]
          simp only [List.cons_append, List.nil_append]
          exact pj_false_step F rest
      | num n =>
        rw [printJson]
        unfold intDigits
        by_cases hn : n < 0
        · rw [if_pos hn, List.cons_append,
            pj_neg_step F _ n.natAbs rest (readNatNum_planted n.natAbs rest hnt)]
          have e : -((n.natAbs : Int)) = n := by omega
          rw [e]
        · rw [if_neg hn]
          obtain ⟨d, ds, hd⟩ := List.exists_cons_of_ne_nil (natDigits_ne_nil n.natAbs)
          have hdig : d.isDigit = true :=
            natDigits_all_digit _ d (by rw [hd]; exact List.mem_cons_self _ _)
          have hr := readNatNum_planted n.natAbs rest hnt
          rw [hd, List.cons_append] at hr ⊢
          rw [pj_digit_step F d (ds ++ rest) n.natAbs rest hdig hr]
          have e : ((n.natAbs : Nat) : Int) = n := by omega
          rw [e]
      | str s =>
        rw [printJson, jsonEscStr_length] at hlen
        have hle := length_le_flatMap_esc s.data
        rw [printJson]
        unfold jsonEscStr
        simp only [List.cons_append, List.append_assoc, List.singleton_append, List.nil_append]
        rw [pj_str_step F _ _ _ (parseStrBody_planted s.data F rest (by omega)),
          string_mk_data]
      | arr l =>
        cases l with
        | nil =>
          have e : "[]".data = ['[', ']'] := rfl
          rw [printJson, e]
          simp only [List.cons_append, List.nil_append]
          exact pj_arr_nil_step F (']' :: rest) rest (skipWs_cons_not ']' rest (by decide))
        | cons x xs =>
          have hx : jvalid x = true := jvalid_arr_mem hval (List.mem_cons_self _ _)
          have hxs : jvalidList xs = true := by
            rw [jvalid] at hval
            exact (jvalidList_cons hval).2
          rw [printJson] at hlen ⊢
          simp only [List.cons_append, List.append_assoc, List.singleton_append, List.nil_append]
          simp only [List.length_cons, List.length_append, List.length_nil] at hlen
          have hpx := printJson_length_pos x
          have h0 := skipWs_printJson_append x (printArrTail xs ++ ']' :: rest)
          have hhd := (printJson_append_headD_ne x (printArrTail xs ++ ']' :: rest) ' ').1
          have h1 : parseJson F (printJson x ++ (printArrTail xs ++ ']' :: rest)) =
              some (x, printArrTail xs ++ ']' :: rest) :=
            ihJ x _ hx (by omega) (arrTail_numTerm xs rest)
          have h2 : parseArrTail F (skipWs (printArrTail xs ++ ']' :: rest)) =
              some (xs, rest) := by
            rw [skipWs_arrTail_append]
            exact ihA xs rest hxs (by omega)
          exact pj_arr_cons_step F _ x _ xs rest h0 hhd h1 h2
      | obj fs =>
        cases fs with
        | nil =>
          rw [printJson]
          simp only [List.cons_append, List.nil_append]
          exact pj_obj_nil_step F (rbrace :: rest) rest
            (skipWs_cons_not rbrace rest (by decide))
        | cons kv fs' =>
          obtain ⟨k, v0⟩ := kv
          obtain ⟨hnodup, hfields⟩ := jvalid_obj_parts hval
          obtain ⟨hv0, hfs'⟩ := jvalidFields_cons hfields
          rw [printJson] at hlen ⊢
          simp only [List.cons_append, List.append_assoc, List.singleton_append, List.nil_append]
          simp only [List.length_cons, List.length_append, List.length_nil] at hlen
          have hpv := printJson_length_pos v0
          have h0 := skipWs_escStr_append k (':' :: ' ' :: (printJson v0 ++
            (printObjTail fs' ++ rbrace :: rest)))
          have hhd := escStr_append_headD k (':' :: ' ' :: (printJson v0 ++
            (printObjTail fs' ++ rbrace :: rest))) ' '
          have h1 : parseMember F (jsonEscStr k ++ ':' :: ' ' :: (printJson v0 ++
              (printObjTail fs' ++ rbrace :: rest))) =
              some ((k, v0), printObjTail fs' ++ rbrace :: rest) :=
            ihM k v0 _ hv0 (by omega) (objTail_numTerm fs' rest)
          have h2 : parseObjTail F (skipWs (printObjTail fs' ++ rbrace :: rest)) =
              some (fs', rest) := by
            rw [skipWs_objTail_append]
            exact ihO fs' rest hfs' (by omega)
          rw [pj_obj_cons_step F _ (k, v0) _ fs' rest h0 (by rw [hhd]; decide) h1 h2,
            dictOfPairs_nodup _ hnodup]
    · intro k v rest hval hlen hnt
      have hlen2 := hlen
      rw [jsonEscStr_length] at hlen2
      have hkle := length_le_flatMap_esc k.data
      have hpv := printJson_length_pos v
      unfold jsonEscStr
      simp only [List.cons_append, List.append_assoc, List.singleton_append, List.nil_append]
      have h1 : parseStrBody F (k.data.flatMap jsonEscChar ++ dquote ::
          (':' :: ' ' :: (printJson v ++ rest))) =
          some (k.data, ':' :: ' ' :: (printJson v ++ rest)) :=
        parseStrBody_planted k.data F _ (by omega)
      have h2 : skipWs (':' :: ' ' :: (printJson v ++ rest)) =
          ':' :: (' ' :: (printJson v ++ rest)) :=
        skipWs_cons_not _ _ (by decide)
      have h3 : parseJson F (skipWs (' ' :: (printJson v ++ rest))) = some (v, rest) := by
        rw [skipWs_cons_ws _ _ (by decide), skipWs_printJson_append]
        exact ihJ v rest hval (by omega) hnt
      rw [pm_step F _ k.data _ _ v rest h1 h2 h3, string_mk_data]
    · intro vs rest hval hlen
      cases vs with
      | nil =>
        rw [printArrTail, List.nil_append]
        exact pa_nil_step F rest
      | cons y ys =>
        obtain ⟨hy, hys⟩ := jvalidList_cons hval
        rw [printArrTail] at hlen ⊢
        simp only [List.cons_append, List.append_assoc, List.singleton_append, List.nil_append]
        simp only [List.length_cons, List.length_append] at hlen
        have hpy := printJson_length_pos y
        have h1 : parseJson F (skipWs (' ' ::
            (printJson y ++ (printArrTail ys ++ ']' :: rest)))) =
            some (y, printArrTail ys ++ ']' :: rest) := by
          rw [skipWs_cons_ws _ _ (by decide), skipWs_printJson_append]
          exact ihJ y _ hy (by omega) (arrTail_numTerm ys rest)
        have h2 : parseArrTail F (skipWs (printArrTail ys ++ ']' :: rest)) =
            some (ys, rest) := by
          rw [skipWs_arrTail_append]
          exact ihA ys rest hys (by omega)
        exact pa_cons_step F _ y _ ys rest h1 h2
    · intro fs rest hval hlen
      cases fs with
      | nil =>
        rw [printObjTail, List.nil_append]
        exact po_nil_step F rest
      | cons kv fs' =>
        obtain ⟨k, v0⟩ := kv
        obtain ⟨hv0, hfs'⟩ := jvalidFields_cons hval
        rw [printObjTail] at hlen ⊢
        simp only [List.cons_append, List.append_assoc, List.singleton_append, List.nil_append]
        simp only [List.length_cons, List.length_append] at hlen
        have hpv := printJson_length_pos v0
        have h1 : parseMember F (skipWs (' ' :: (jsonEscStr k ++ ':' :: ' ' ::
            (printJson v0 ++ (printObjTail fs' ++ rbrace :: rest))))) =
            some ((k, v0), printObjTail fs' ++ rbrace :: rest) := by
          rw [skipWs_cons_ws _ _ (by decide), skipWs_escStr_append]
          exact ihM k v0 _ hv0 (by omega) (objTail_numTerm fs' rest)
        have h2 : parseObjTail F (skipWs (printObjTail fs' ++ rbrace :: rest)) =
            some (fs', rest) := by
          rw [skipWs_objTail_append]
          exact ihO fs' rest hfs' (by omega)
        exact po_cons_step F _ (k, v0) _ fs' rest h1 h2

/-- C1: the storage codec round-trips every supported record: `json.loads`
of the `json.dumps` wire form gives back the same record, so
`deserialize_data (serialize_data data)` recovers `data` exactly. The
hypothesis states that the record lies in the image of Python's data model
(every nested dict has pairwise-distinct keys); numbers are modelled as
integers. -/
theorem serialize_deserialize_roundtrip (data : Record)
    (h : jvalid (JValue.obj data) = true) :
    deserialize_data (serialize_data data) = some (JValue.obj data) := by
  unfold deserialize_data serialize_data
  have hlen : (String.mk (printJson (JValue.obj data))).length =
      (printJson (JValue.obj data)).length := rfl
  have hdata : (String.mk (printJson (JValue.obj data))).data =
      printJson (JValue.obj data) := rfl
  rw [hlen, hdata]
  have hskip : skipWs (printJson (JValue.obj data)) = printJson (JValue.obj data) := by
    obtain ⟨c, cs, hsh, hws, _, _⟩ := printJson_shape (JValue.obj data)
    rw [hsh]
    exact skipWs_cons_not _ _ hws
  rw [hskip]
  have hrt := (parse_print_roundtrip ((printJson (JValue.obj data)).length + 1)).1
    (JValue.obj data) [] h (by omega) (by intro c hc; simp at hc)
  rw [List.append_nil] at hrt
  rw [hrt]
  rfl

/-- Witness for C1 at a record exercising every supported value kind. -/
theorem serialize_deserialize_roundtrip_witness :
    jvalid (JValue.obj [("k", JValue.str "a"), ("n", JValue.num (-5)),
      ("b", JValue.bool true), ("z", JValue.null),
      ("l", JValue.arr [JValue.num 1, JValue.obj []])]) = true ∧
    deserialize_data (serialize_data [("k", JValue.str "a"), ("n", JValue.num (-5)),
      ("b", JValue.bool true), ("z", JValue.null),
      ("l", JValue.arr [JValue.num 1, JValue.obj []])]) =
      some (JValue.obj [("k", JValue.str "a"), ("n", JValue.num (-5)),
        ("b", JValue.bool true), ("z", JValue.null),
        ("l", JValue.arr [JValue.num 1, JValue.obj []])]) := by
  have h : jvalid (JValue.obj [("k", JValue.str "a"), ("n", JValue.num (-5)),
      ("b", JValue.bool true), ("z", JValue.null),
      ("l", JValue.arr [JValue.num 1, JValue.obj []])]) = true := by
    simp [jvalid, jvalidList, jvalidFields]
  exact ⟨h, serialize_deserialize_roundtrip _ h⟩

end Memoryman
